import Mathlib

/-!
# Verification of the Astar dApp-staking core

A shallow embedding of the dApp-staking accounting and reward-tiering engine
of the Astar runtime.  The repository snapshot contains the pallet's test
suite (`src/pallets/dapp-staking/src/test/`) but not the pallet
implementation itself, so the operations below are modelled from the
natural-language specification, cross-checked against the in-repo test
oracle (`testing_utils.rs`) wherever the tests pin exact behaviour.

Balances, era numbers, period numbers and block numbers are modelled as
`Nat`; `Perbill`/`Permill` fixed-point arithmetic is modelled as exact
integer arithmetic with floor division, matching the saturating/flooring
semantics of the runtime arithmetic on the values the tests exercise.
-/

namespace DappStaking

/-- The two phases of a period. -/
inductive Subperiod where
  | Voting
  | BuildAndEarn
deriving DecidableEq, Repr

/-- A stake snapshot valid from a specific era onward within a specific period.
Mirrors `StakeAmount { voting, build_and_earn, era, period }`. -/
structure StakeAmount where
  voting : Nat
  build_and_earn : Nat
  era : Nat
  period : Nat
deriving DecidableEq, Repr

instance : Inhabited StakeAmount := ⟨⟨0, 0, 0, 0⟩⟩

/-- Total staked amount of a snapshot: `voting + build_and_earn`. -/
def StakeAmount.total (s : StakeAmount) : Nat :=
  s.voting + s.build_and_earn

/-- Period bookkeeping inside the protocol state. -/
structure PeriodInfo where
  period_number : Nat
  subperiod : Subperiod
  next_subperiod_start_era : Nat
deriving DecidableEq, Repr

/-- The protocol clock singleton:
`{ era, next_era_start, period_info }` (maintenance flag omitted — the
era-advance logic modelled here is independent of it). -/
structure ProtocolState where
  era : Nat
  next_era_start : Nat
  period_info : PeriodInfo
deriving DecidableEq, Repr

/-- External cycle configuration: era lengths per subperiod. -/
structure CycleConfig where
  blocks_per_era : Nat
  eras_per_build_and_earn : Nat
  eras_per_voting_subperiod : Nat
deriving DecidableEq, Repr

/-- Modelled from the spec: the era-advance transition of the Protocol
Clock (§4.1), evaluated once per block at a fixed hook point; the pallet
implementation is absent from the snapshot and the in-repo oracle
`assert_block_bump` pins the same transitions.
- If `block_number < next_era_start`: no-op.
- Else advance `era += 1`; if `next_subperiod_start_era ≤ new era` flip the
  subperiod (Voting→BuildAndEarn sets `next_subperiod_start_era =
  new_era + eras_per_build_and_earn` and `next_era_start = block +
  blocks_per_era`; BuildAndEarn→Voting increments `period_number`, sets
  `next_subperiod_start_era = new_era + 1` and `next_era_start = block +
  eras_per_voting_subperiod * blocks_per_era`); otherwise keep the period
  info and advance `next_era_start` by `blocks_per_era`. -/
def ProtocolState.bump (cfg : CycleConfig) (st : ProtocolState) (block : Nat) :
    ProtocolState :=
  if block < st.next_era_start then st
  else
    let new_era := st.era + 1
    if st.period_info.next_subperiod_start_era ≤ new_era then
      match st.period_info.subperiod with
      | .Voting =>
          { era := new_era
            next_era_start := block + cfg.blocks_per_era
            period_info :=
              { period_number := st.period_info.period_number
                subperiod := .BuildAndEarn
                next_subperiod_start_era := new_era + cfg.eras_per_build_and_earn } }
      | .BuildAndEarn =>
          { era := new_era
            next_era_start := block + cfg.eras_per_voting_subperiod * cfg.blocks_per_era
            period_info :=
              { period_number := st.period_info.period_number + 1
                subperiod := .Voting
                next_subperiod_start_era := new_era + 1 } }
    else
      { st with
        era := new_era
        next_era_start := st.next_era_start + cfg.blocks_per_era }

/-- Chain-wide aggregate stake info: the `current` / `next` era views.
`total_locked`/`unlocking` are not touched by the era rollover modelled
here, so only the two stake snapshots are kept. -/
structure EraInfo where
  current_stake_amount : StakeAmount
  next_stake_amount : StakeAmount
deriving DecidableEq, Repr

/-- Modelled from the spec: the `EraInfo` rollover performed at every era
boundary (§3 "Rolled forward every era boundary"), with the exact reset
behaviour pinned by the in-repo test oracle `assert_block_bump` (step 2,
"Verify current era info"), since the pallet implementation is absent:
- at a period boundary (`next_subperiod = Voting`) both snapshots are reset
  to zero totals tagged with the new period (eras `era+1` / `era+2`);
- at every other era boundary `current ← next` and `next` keeps its stake
  totals and period, with its era tag advanced by one. -/
def EraInfo.migrate_to_next_era (info : EraInfo) (next_subperiod : Option Subperiod) :
    EraInfo :=
  match next_subperiod with
  | some .Voting =>
      { current_stake_amount :=
          { voting := 0, build_and_earn := 0
            era := info.current_stake_amount.era + 1
            period := info.current_stake_amount.period + 1 }
        next_stake_amount :=
          { voting := 0, build_and_earn := 0
            era := info.current_stake_amount.era + 2
            period := info.current_stake_amount.period + 1 } }
  | _ =>
      { current_stake_amount := info.next_stake_amount
        next_stake_amount :=
          { info.next_stake_amount with era := info.next_stake_amount.era + 1 } }

/-! ## Tier Assignment Engine -/

/-- Number of in-tier ranks; `MAX_RANK = RANK_COUNT = 10` in the runtime
(rank 10 corresponds to a stake at the upper threshold, pinned by the
in-repo tests: a stake equal to the tier-0 threshold lands in tier 1 with
rank 10). -/
def rankCount : Nat := 10

/-- Modelled from the spec: the threshold-interpolation used for ranking
(§4.4 step 4, "rank 0 = lowest bonus, computed via the same
threshold-interpolation used for ranking"); the exact integer arithmetic is
pinned by the rank values asserted in the in-repo tests
(`ranking_will_calc_reward_correctly`): the rank of a stake in a tier with
lower threshold `lower` and upper threshold `upper` is
`(stake - lower) / ((upper - lower) / 10)`, capped at 10, and 0 whenever
the upper bound is 0 (the top tier) or the interpolation step vanishes. -/
def findRank (lower upper stake : Nat) : Nat :=
  if upper = 0 then 0
  else
    let step := (upper - lower) / rankCount
    if step = 0 then 0 else min ((stake - lower) / step) rankCount

/-- One tier of the tier configuration: reward portion of the dApp reward
pool in parts-per-million, slot capacity, and entry threshold (an absolute
stake amount). -/
structure TierSpec where
  portion_ppm : Nat
  slots : Nat
  threshold : Nat
deriving DecidableEq, Repr

/-- Modelled from the spec: filling one tier from the stake-sorted
candidate list (§4.4 step 2).  Walking the list from the front, a dApp
occupies a slot while the tier has capacity left and the dApp's stake
clears the tier's threshold; the first dApp below the threshold stops the
tier (the list is sorted descending, so all later dApps fail too).
Returns the occupants as `(dapp_id, stake, rank)` triples together with
the remaining candidates, which stay available for lower tiers. -/
def fillTier (upper threshold : Nat) : Nat → List (Nat × Nat) →
    List (Nat × Nat × Nat) × List (Nat × Nat)
  | _, [] => ([], [])
  | 0, (d, s) :: rest => ([], (d, s) :: rest)
  | slots + 1, (d, s) :: rest =>
    if threshold ≤ s then
      let out := fillTier upper threshold slots rest
      ((d, s, findRank threshold upper s) :: out.1, out.2)
    else ([], (d, s) :: rest)

/-- Result of the tier assignment: the placed dApps as
`(dapp_id, tier index, rank)` triples, the flat per-slot reward of every
tier, and the per-rank reward of every tier. -/
structure TierAssignment where
  dapps : List (Nat × Nat × Nat)
  rewards : List Nat
  rank_rewards : List Nat
deriving DecidableEq, Repr

/-- Modelled from the spec: the per-tier reward computation of
`get_dapp_tier_assignment_and_rewards` (§4.4 steps 2–4) over the
stake-sorted candidate list, processing tiers from the most exclusive one
down.  For each tier: fill its slots from the front of the candidate
list (`fillTier`), compute the flat per-slot reward
`portion × pool / slots`, and — when the tier has empty slots and its
occupants carry ranks — a per-rank reward
`min(slot_reward × empty_slots / ranks_sum, slot_reward / 10)`; the cap of
one tenth of a slot reward per rank is pinned by the in-repo test
`get_dapp_tier_assignment_and_rewards_basic_example_works` (rank reward
6000 for slot reward 60000 when the uncapped quotient would be 9473).
The candidates a tier did not admit remain candidates for the tiers after
it. -/
def processTiers (pool : Nat) : Nat → Nat → List TierSpec → List (Nat × Nat) →
    TierAssignment
  | _, _, [], _ => ⟨[], [], []⟩
  | upper, idx, t :: tiers, stakes =>
    let filled := fillTier upper t.threshold t.slots stakes
    let slot_reward := t.portion_ppm * pool / 1000000 / t.slots
    let ranks_sum := (filled.1.map (fun e => e.2.2)).sum
    let empty := t.slots - filled.1.length
    let rank_reward :=
      if 0 < empty ∧ 0 < ranks_sum then
        min (slot_reward * empty / ranks_sum) (slot_reward / rankCount)
      else 0
    let tail := processTiers pool t.threshold (idx + 1) tiers filled.2
    ⟨filled.1.map (fun e => (e.1, idx, e.2.2)) ++ tail.dapps,
      slot_reward :: tail.rewards,
      rank_reward :: tail.rank_rewards⟩

/-- Insert a `(dapp_id, stake)` pair into a list sorted by stake
descending, keeping earlier entries first among equal stakes. -/
def insertByStakeDesc (p : Nat × Nat) : List (Nat × Nat) → List (Nat × Nat)
  | [] => [p]
  | q :: rest => if q.2 < p.2 then p :: q :: rest else q :: insertByStakeDesc p rest

/-- Sort `(dapp_id, stake)` pairs by stake descending. -/
def sortByStakeDesc : List (Nat × Nat) → List (Nat × Nat)
  | [] => []
  | p :: rest => insertByStakeDesc p (sortByStakeDesc rest)

/-- Modelled from the spec: `get_dapp_tier_assignment_and_rewards`
(§4.4): collect every registered dApp with a non-zero total stake for the
period, sort them by stake descending, and process the configured tiers
in order.  The evaluated-dApps counter and storage plumbing are omitted;
the function is the pure assignment core. -/
def getDappTierAssignment (tiers : List TierSpec) (stakes : List (Nat × Nat))
    (pool : Nat) : TierAssignment :=
  processTiers pool 0 0 tiers (sortByStakeDesc (stakes.filter (fun p => 0 < p.2)))

/-! ## Fixed-point arithmetic -/

/-- `Perbill` accuracy: parts per billion. -/
def perbillAccuracy : Nat := 1000000000

/-- `Perbill::from_rational(num, den)`: the quotient as parts-per-billion,
rounded down and saturated at one. -/
def perbillFromRational (num den : Nat) : Nat :=
  min perbillAccuracy (num * perbillAccuracy / den)

/-- Multiplication of a `Perbill` (given as parts) by a balance, rounding
down. -/
def perbillMul (parts value : Nat) : Nat :=
  parts * value / perbillAccuracy

/-- Modelled from the spec: the per-era staker reward
`Perbill::from_rational(account_stake_in_era, era_staked_total) ×
staker_reward_pool` (§4.5, pinned verbatim by the test oracle
`assert_claim_staker_rewards`). -/
def stakerEraReward (stake total pool : Nat) : Nat :=
  perbillMul (perbillFromRational stake total) pool

/-! ## Account Ledger -/

/-- A pending-unlock chunk. -/
structure UnlockingChunk where
  amount : Nat
  unlock_block : Nat
deriving DecidableEq, Repr

/-- Per-account ledger: active locked amount, unlocking chunks, and the
current-era / next-era stake views (`contract_stake_count` is not needed by
the modelled operations). -/
structure AccountLedger where
  locked : Nat
  unlocking : List UnlockingChunk
  staked : StakeAmount
  staked_future : Option StakeAmount
deriving DecidableEq, Repr

/-- The active locked amount (unlocking chunks are tracked separately from
`locked`). -/
def AccountLedger.active_locked_amount (l : AccountLedger) : Nat := l.locked

/-- Amount staked by the account for the given period: the next-era view
takes precedence over the current-era view, and entries tagged with a
different period count as zero. -/
def AccountLedger.staked_amount (l : AccountLedger) (period : Nat) : Nat :=
  match l.staked_future with
  | some f =>
      if f.period = period then f.total
      else if l.staked.period = period then l.staked.total else 0
  | none => if l.staked.period = period then l.staked.total else 0

/-- Amount still available for staking in the given period:
`active_locked - staked_amount(period)`. -/
def AccountLedger.stakeable_amount (l : AccountLedger) (period : Nat) : Nat :=
  l.active_locked_amount - l.staked_amount period

/-- Amount available for unlocking:
`active_locked - currently_staked_in_ongoing_period` (§4.2). -/
def AccountLedger.unlockable_amount (l : AccountLedger) (period : Nat) : Nat :=
  l.active_locked_amount - l.staked_amount period

/-- The period of the account's staked entries, if any stake exists. -/
def AccountLedger.staked_period (l : AccountLedger) : Option Nat :=
  if l.staked.total ≠ 0 then some l.staked.period
  else
    match l.staked_future with
    | some f => if f.total ≠ 0 then some f.period else none
    | none => none

/-- The earliest era with unclaimed staked rewards, if any stake exists. -/
def AccountLedger.earliest_staked_era (l : AccountLedger) : Option Nat :=
  if l.staked.total ≠ 0 then some l.staked.era
  else l.staked_future.map (fun f => f.era)

/-- Lazy roll of the next-era view into the current-era view once its era
has arrived (§9 "Lazy time-sharded state"). -/
def AccountLedger.roll_for_era (l : AccountLedger) (era : Nat) : AccountLedger :=
  match l.staked_future with
  | some f => if f.era ≤ era then { l with staked := f, staked_future := none } else l
  | none => l

/-- Ledger configuration constants relevant to the modelled operations. -/
structure LedgerConfig where
  min_locked : Nat
  max_chunks : Nat
  unlock_delay : Nat
deriving DecidableEq, Repr

/-- The closed error enumeration (the subset surfaced by the modelled
operations). -/
inductive DSError where
  | ZeroAmount
  | LockedAmountBelowThreshold
  | TooManyUnlockingChunks
  | RemainingStakePreventsFullUnlock
  | UnavailableStakeFunds
  | UnclaimedRewards
  | NoClaimableRewards
  | RewardExpired
  | RewardPayoutFailed
  | NotEligibleForBonusReward
  | InvalidClaimEra
  | NoDAppTierInfo
deriving DecidableEq, Repr

/-- Add an unlocking chunk for the given unlock block, merging with an
existing chunk that targets the same block; `none` when a fresh chunk would
exceed the bounded chunk count. -/
def addChunk (max_chunks : Nat) (chunks : List UnlockingChunk) (amount block : Nat) :
    Option (List UnlockingChunk) :=
  if chunks.any (fun c => c.unlock_block == block) then
    some (chunks.map (fun c =>
      if c.unlock_block == block then { c with amount := c.amount + amount } else c))
  else if chunks.length < max_chunks then some (chunks ++ [⟨amount, block⟩])
  else none

/-- Modelled from the spec: the `lock` effect on the account ledger —
the clamped amount is added to the active locked total (balance-side
clamping and the fresh-lock minimum check happen at dispatch and do not
affect the ledger arithmetic modelled here). -/
def AccountLedger.add_lock (l : AccountLedger) (amount : Nat) : AccountLedger :=
  { l with locked := l.locked + amount }

/-- Modelled from the spec: `unlock(amount)` (§4.2).  Computes
`unlockable = active_locked - staked_in_ongoing_period`, clamps the request
to it, fails `ZeroAmount` on a zero effective amount; when the remaining
active-locked amount would fall below `min_locked` the unlock widens to the
entire active locked amount — unless stake for the ongoing period remains,
in which case the call fails `RemainingStakePreventsFullUnlock` (pinned by
the in-repo test `unlock_everything_with_active_stake_fails`).  Returns the
updated ledger together with the amount actually unlocked. -/
def unlockCall (cfg : LedgerConfig) (period current_block : Nat)
    (l : AccountLedger) (amount : Nat) : Except DSError (AccountLedger × Nat) :=
  let amount_to_unlock := min (l.unlockable_amount period) amount
  if amount_to_unlock = 0 then .error .ZeroAmount
  else
    let remaining := l.active_locked_amount - amount_to_unlock
    let final_amount :=
      if remaining < cfg.min_locked then l.active_locked_amount else amount_to_unlock
    if remaining < cfg.min_locked ∧ l.staked_amount period ≠ 0 then
      .error .RemainingStakePreventsFullUnlock
    else
      match addChunk cfg.max_chunks l.unlocking final_amount
          (current_block + cfg.unlock_delay) with
      | none => .error .TooManyUnlockingChunks
      | some chunks =>
          .ok ({ l with locked := l.locked - final_amount, unlocking := chunks },
            final_amount)

/-- Modelled from the spec: the `stake` effect on the account ledger
(§4.3).  Fails `ZeroAmount` on a zero amount, `UnclaimedRewards` when stake
from a strictly earlier period is still recorded, and
`UnavailableStakeFunds` when the amount exceeds the remaining stakeable
amount; otherwise rolls the next-era view lazily, and adds the amount to
the next-era view (`era+1`) on the component selected by the current
subperiod. -/
def AccountLedger.add_stake (l : AccountLedger) (era period : Nat) (sub : Subperiod)
    (amount : Nat) : Except DSError AccountLedger :=
  if amount = 0 then .error .ZeroAmount
  else if l.staked_period.getD period < period then
    .error .UnclaimedRewards
  else if l.stakeable_amount period < amount then .error .UnavailableStakeFunds
  else
    let l1 := l.roll_for_era era
    let cur : StakeAmount :=
      if l1.staked.period = period then l1.staked else ⟨0, 0, era, period⟩
    let fut0 : StakeAmount :=
      match l1.staked_future with
      | some f => if f.period = period then f else cur
      | none => cur
    let fut : StakeAmount :=
      match sub with
      | .Voting =>
          { fut0 with voting := fut0.voting + amount, era := era + 1, period := period }
      | .BuildAndEarn =>
          { fut0 with
            build_and_earn := fut0.build_and_earn + amount
            era := era + 1
            period := period }
    .ok { l1 with staked := cur, staked_future := some fut }

/-- Remove an amount from a stake snapshot, taking from the
`build_and_earn` component first and the `voting` component second (§4.3
"Proportional removal order"), clamped at the available amounts. -/
def StakeAmount.subtract (s : StakeAmount) (amount : Nat) : StakeAmount :=
  let from_bae := min amount s.build_and_earn
  let from_voting := min (amount - from_bae) s.voting
  { s with
    build_and_earn := s.build_and_earn - from_bae
    voting := s.voting - from_voting }

/-- Modelled from the spec: the `unstake` effect on the account ledger —
both era views for the ongoing period are reduced by the (clamped)
amount. -/
def AccountLedger.unstake (l : AccountLedger) (period amount : Nat) : AccountLedger :=
  { l with
    staked := if l.staked.period = period then l.staked.subtract amount else l.staked
    staked_future := l.staked_future.map (fun f =>
      if f.period = period then f.subtract amount else f) }

/-- Modelled from the spec: `claim_unlocked` removes every chunk whose
unlock block has been reached (the summed amount moves to free balance,
outside the ledger). -/
def AccountLedger.claim_unlocked (l : AccountLedger) (block : Nat) : AccountLedger :=
  { l with unlocking := l.unlocking.filter (fun c => decide (block < c.unlock_block)) }

/-- Modelled from the spec: `relock_unlocking` moves the entire
unlocking-chunk total back into the active locked amount. -/
def AccountLedger.relock_unlocking (l : AccountLedger) : AccountLedger :=
  { l with
    locked := l.locked + (l.unlocking.map (fun c => c.amount)).sum
    unlocking := [] }

/-- Modelled from the spec: the `claim_staker_rewards` effect on the
ledger's staked entries — a full claim (the staked period is closed and
every era up to its final era is claimed) clears them entirely, a partial
claim advances the current view's era tag to `up_to + 1`. -/
def AccountLedger.claim_rewards (l : AccountLedger) (up_to : Nat) (full : Bool) :
    AccountLedger :=
  if full then { l with staked := ⟨0, 0, 0, 0⟩, staked_future := none }
  else
    let rolled :=
      match l.staked_future with
      | some f => if f.era ≤ up_to + 1 then f else l.staked
      | none => l.staked
    { l with staked := { rolled with era := up_to + 1 }, staked_future := none }

/-- One user-facing ledger operation together with the clock context it
executes under (the ongoing period is fixed per sequence, see the
invariant theorem). -/
inductive LedgerOp where
  | lock (amount : Nat)
  | unlock (current_block amount : Nat)
  | stake (era : Nat) (sub : Subperiod) (amount : Nat)
  | unstake (amount : Nat)
  | claimUnlocked (block : Nat)
  | relock
  | moveStake
  | claimRewards (up_to : Nat) (full : Bool)
deriving DecidableEq, Repr

/-- Modelled from the spec: one dispatched operation acting on an account
ledger; a failed operation leaves the ledger unmodified (dispatch
atomicity, §5).  `moveStake` leaves the account ledger unchanged: a move
re-stakes the same amount on a different contract, so the account's
aggregate staked and locked amounts are untouched. -/
def ledgerStep (cfg : LedgerConfig) (period : Nat) (l : AccountLedger) :
    LedgerOp → AccountLedger
  | .lock a => l.add_lock a
  | .unlock blk a =>
      match unlockCall cfg period blk l a with
      | .ok (l', _) => l'
      | .error _ => l
  | .stake era sub a =>
      match l.add_stake era period sub a with
      | .ok l' => l'
      | .error _ => l
  | .unstake a => l.unstake period a
  | .claimUnlocked blk => l.claim_unlocked blk
  | .relock => l.relock_unlocking
  | .moveStake => l
  | .claimRewards e full => l.claim_rewards e full

/-! ## Era rewards and claim operations -/

/-- One era's compressed reward record: total stake and staker reward
pool. -/
structure EraReward where
  staked : Nat
  staker_reward_pool : Nat
deriving DecidableEq, Repr

instance : Inhabited EraReward := ⟨⟨0, 0⟩⟩

/-- An `EraRewardSpan`: consecutive `EraReward` entries starting at
`first_era`. -/
structure EraRewardSpan where
  first_era : Nat
  entries : List EraReward
deriving DecidableEq, Repr

/-- The last era recorded in the span. -/
def EraRewardSpan.last_era (s : EraRewardSpan) : Nat :=
  s.first_era + s.entries.length - 1

/-- The reward record of era `e`, when the span holds it. -/
def EraRewardSpan.get (s : EraRewardSpan) (e : Nat) : Option EraReward :=
  if s.first_era ≤ e then s.entries.get? (e - s.first_era) else none

/-- The account's stake amount during era `e`: the next-era view applies
from its own era onward, the current-era view before that. -/
def AccountLedger.stake_for_era (l : AccountLedger) (e : Nat) : Nat :=
  match l.staked_future with
  | some f => if f.era ≤ e then f.total else l.staked.total
  | none => l.staked.total

/-- Modelled from the spec: `claim_staker_rewards` (§4.5).  Walks forward
from the ledger's earliest unclaimed staked era up to `min(last era of the
span, period_end.final_era)` when the staked period has closed
(`period_end = some final_era`), or up to `current_era - 1` while the
staked period is still ongoing; computes
`Perbill::from_rational(stake_in_era, era_staked_total) ×
staker_reward_pool` per era; fails `NoClaimableRewards` when nothing is
mature, `RewardExpired` when the starting era has been pruned, and
`RewardPayoutFailed` when the external payout hook (`payout_ok`) rejects
the transfer — in that case no state is produced, so storage stays
unmodified.  On success returns the updated ledger and the per-era reward
list. -/
def claimStakerRewards (l : AccountLedger) (span : EraRewardSpan)
    (current_era : Nat) (period_end : Option Nat) (oldest_valid_era : Nat)
    (payout_ok : Bool) : Except DSError (AccountLedger × List (Nat × Nat)) :=
  match l.earliest_staked_era with
  | none => .error .NoClaimableRewards
  | some first =>
    if first < oldest_valid_era then .error .RewardExpired
    else
      let last :=
        match period_end with
        | some final_era => min span.last_era final_era
        | none => current_era - 1
      if last < first then .error .NoClaimableRewards
      else
        let rewards := (List.range (last + 1 - first)).map (fun i =>
          let e := first + i
          let info := (span.get e).getD ⟨0, 0⟩
          (e, stakerEraReward (l.stake_for_era e) info.staked info.staker_reward_pool))
        if payout_ok then
          let full := period_end == some last
          .ok (l.claim_rewards last full, rewards)
        else .error .RewardPayoutFailed

/-- Per-period record written once the period's Build&Earn subperiod
concludes. -/
structure PeriodEndInfo where
  final_era : Nat
  total_vp_stake : Nat
  bonus_reward_pool : Nat
deriving DecidableEq, Repr

/-! ## Staker Info, unstake and move -/

/-- Per (account × contract) stake position with bonus tracking. -/
structure SingularStakingInfo where
  previous_staked : StakeAmount
  staked : StakeAmount
  bonus_status : Nat
deriving DecidableEq, Repr

/-- Bonus eligibility: the decrementing `bonus_status` counter is still
positive. -/
def SingularStakingInfo.is_bonus_eligible (info : SingularStakingInfo) : Prop :=
  0 < info.bonus_status

instance (info : SingularStakingInfo) : Decidable info.is_bonus_eligible :=
  inferInstanceAs (Decidable (0 < info.bonus_status))

/-- Modelled from the spec: the unstake arithmetic on a staking position
(§4.3).  The amount (clamped at the total stake) is removed from the
`build_and_earn` component first and the `voting` component second;
removing voting stake during the Build&Earn subperiod decrements
`bonus_status` by one, and drives it to 0 (forfeits the bonus) when the
voting stake is removed entirely outside the Voting subperiod.  Returns
the updated position together with the removed `(build_and_earn, voting)`
amounts. -/
def SingularStakingInfo.unstake_from (info : SingularStakingInfo) (sub : Subperiod)
    (amount : Nat) : SingularStakingInfo × Nat × Nat :=
  let from_bae := min amount info.staked.build_and_earn
  let from_voting := min (amount - from_bae) info.staked.voting
  let staked' := info.staked.subtract amount
  let bonus' :=
    if sub = .BuildAndEarn ∧ 0 < from_voting then
      if staked'.voting = 0 then 0 else info.bonus_status - 1
    else info.bonus_status
  ({ info with staked := staked', bonus_status := bonus' }, from_bae, from_voting)

/-- What a `move_stake` hands to the destination contract: the updated
source position and the stake components arriving at the destination. -/
structure MoveOutcome where
  source : SingularStakingInfo
  dest_voting : Nat
  dest_build_and_earn : Nat
deriving DecidableEq, Repr

/-- Modelled from the spec: the bonus semantics of `move_stake` (§4.3).
The move unstakes from the source (build_and_earn first, voting second,
with the bonus-status degradation of `unstake_from`); when the source's
bonus ends up forfeited (`bonus_status = 0`) the moved voting component is
converted into `build_and_earn` at the destination — it can no longer earn
the loyalty bonus — otherwise the components move unchanged. -/
def moveStake (info : SingularStakingInfo) (sub : Subperiod) (amount : Nat) :
    MoveOutcome :=
  let out := info.unstake_from sub amount
  if out.1.bonus_status = 0 then ⟨out.1, 0, out.2.2 + out.2.1⟩
  else ⟨out.1, out.2.2, out.2.1⟩

/-- Modelled from the spec: `claim_bonus_reward` (§4.5).  Requires bonus
eligibility and a closed period (`period_end` present); the reward is
`Perbill::from_rational(voting_stake, total_vp_stake) ×
bonus_reward_pool`; fails `RewardPayoutFailed` when the external payout
hook rejects the transfer, producing no state change. -/
def claimBonusReward (info : SingularStakingInfo)
    (period_end : Option PeriodEndInfo) (payout_ok : Bool) : Except DSError Nat :=
  if info.bonus_status = 0 then .error .NotEligibleForBonusReward
  else
    match period_end with
    | none => .error .NoClaimableRewards
    | some pe =>
      let reward :=
        perbillMul (perbillFromRational info.staked.voting pe.total_vp_stake)
          pe.bonus_reward_pool
      if payout_ok then .ok reward else .error .RewardPayoutFailed

/-- Modelled from the spec: `claim_dapp_reward(dapp, era)` (§4.5).  Fails
`InvalidClaimEra` when `era ≥ current_era`, `NoDAppTierInfo` when no tier
record exists for the era, `NoClaimableRewards` when the dApp holds no
ranked-tier entry; the reward is
`slot_reward[tier] + rank × rank_reward[tier]`, and the dApp's entry is
removed from the record on success (single claim per era); a rejected
payout fails `RewardPayoutFailed` with no state change. -/
def claimDappReward (record : Option TierAssignment) (dapp era current_era : Nat)
    (payout_ok : Bool) : Except DSError (Nat × TierAssignment) :=
  if current_era ≤ era then .error .InvalidClaimEra
  else
    match record with
    | none => .error .NoDAppTierInfo
    | some rec =>
      match rec.dapps.find? (fun e => e.1 == dapp) with
      | none => .error .NoClaimableRewards
      | some entry =>
        let reward := (rec.rewards.get? entry.2.1).getD 0 +
          entry.2.2 * (rec.rank_rewards.get? entry.2.1).getD 0
        if payout_ok then
          .ok (reward, { rec with dapps := rec.dapps.filter (fun e => e.1 != dapp) })
        else .error .RewardPayoutFailed

/-- Occupants of tier `t` in an assignment result. -/
def TierAssignment.tierOccupants (a : TierAssignment) (t : Nat) :
    List (Nat × Nat × Nat) :=
  a.dapps.filter (fun e => e.2.1 == t)

/-- Sum of the occupant ranks of tier `t` in an assignment result. -/
def TierAssignment.tierRanksSum (a : TierAssignment) (t : Nat) : Nat :=
  ((a.tierOccupants t).map (fun e => e.2.2)).sum

/-- The flat per-slot reward of a tier:
`reward_portion × dapp_reward_pool / slots` (§4.4 step 3). -/
def TierSpec.slotReward (spec : TierSpec) (pool : Nat) : Nat :=
  spec.portion_ppm * pool / 1000000 / spec.slots

/-- The rank-reward formula exactly as the specification words state it:
the empty-slot allocation divided by the sum of occupant ranks, with no
further bound.  Kept separate from the modelled computation
(`processTiers`) so the two can be compared. -/
def rankRewardSpecWords (slot_reward empty_slots ranks_sum : Nat) : Nat :=
  slot_reward * empty_slots / ranks_sum

/-- The ongoing-period stake recorded in the ledger's current-era entry
(zero when the entry belongs to another period). -/
def AccountLedger.staked_entry_amount (l : AccountLedger) (p : Nat) : Nat :=
  if l.staked.period = p then l.staked.total else 0

/-- The ongoing-period stake recorded in the ledger's next-era entry
(zero when absent or belonging to another period). -/
def AccountLedger.future_entry_amount (l : AccountLedger) (p : Nat) : Nat :=
  match l.staked_future with
  | some f => if f.period = p then f.total else 0
  | none => 0

/-- Well-formedness of an account ledger for the ongoing period: both era
views are bounded by the active locked amount, and the next-era view
dominates the current-era view whenever it exists (stake added during the
period accrues to the next-era view first). -/
def LedgerInvariant (l : AccountLedger) (p : Nat) : Prop :=
  l.staked_entry_amount p ≤ l.locked ∧
  l.future_entry_amount p ≤ l.locked ∧
  (l.staked_future.isSome = true → l.staked_entry_amount p ≤ l.future_entry_amount p)

/-! ## Theorems -/

/-- C3: whenever the era-advance hook fires with `block ≥ next_era_start`
it advances the era by exactly one; if `next_subperiod_start_era` has been
reached the subperiod flips — Voting→BuildAndEarn sets
`next_subperiod_start_era = new_era + eras_per_build_and_earn` and
`next_era_start = block + blocks_per_era`, BuildAndEarn→Voting increments
the period number, sets `next_subperiod_start_era = new_era + 1` and
`next_era_start = block + eras_per_voting_subperiod × blocks_per_era`;
otherwise the period info stays unchanged and `next_era_start` advances by
`blocks_per_era`. -/
theorem bump_era_advance (cfg : CycleConfig) (st : ProtocolState) (block : Nat)
    (h : st.next_era_start ≤ block) :
    (st.bump cfg block).era = st.era + 1 ∧
    (st.period_info.next_subperiod_start_era ≤ st.era + 1 →
      (st.period_info.subperiod = .Voting →
        (st.bump cfg block).period_info.subperiod = .BuildAndEarn ∧
        (st.bump cfg block).period_info.period_number = st.period_info.period_number ∧
        (st.bump cfg block).period_info.next_subperiod_start_era =
          st.era + 1 + cfg.eras_per_build_and_earn ∧
        (st.bump cfg block).next_era_start = block + cfg.blocks_per_era) ∧
      (st.period_info.subperiod = .BuildAndEarn →
        (st.bump cfg block).period_info.subperiod = .Voting ∧
        (st.bump cfg block).period_info.period_number =
          st.period_info.period_number + 1 ∧
        (st.bump cfg block).period_info.next_subperiod_start_era = st.era + 1 + 1 ∧
        (st.bump cfg block).next_era_start =
          block + cfg.eras_per_voting_subperiod * cfg.blocks_per_era)) ∧
    (¬ st.period_info.next_subperiod_start_era ≤ st.era + 1 →
      (st.bump cfg block).period_info = st.period_info ∧
      (st.bump cfg block).next_era_start = st.next_era_start + cfg.blocks_per_era) := by
  have hlt : ¬ block < st.next_era_start := Nat.not_lt.mpr h
  by_cases hsub : st.period_info.next_subperiod_start_era ≤ st.era + 1
  · cases hs : st.period_info.subperiod <;>
      simp [ProtocolState.bump, hlt, hsub, hs]
  · simp [ProtocolState.bump, hlt, hsub]

/-- C3 witness: the transition applied to a concrete state sitting at a
Voting-subperiod boundary (era 1, boundary block 21, voting era length 20
blocks, five Build&Earn eras per period). -/
theorem bump_era_advance_witness :
    ((⟨1, 21, ⟨1, .Voting, 2⟩⟩ : ProtocolState).bump ⟨10, 5, 2⟩ 21).era = 1 + 1 ∧
    ((⟨1, 21, ⟨1, .Voting, 2⟩⟩ : ProtocolState).bump ⟨10, 5, 2⟩ 21).period_info.subperiod
      = .BuildAndEarn ∧
    ((⟨1, 21, ⟨1, .Voting, 2⟩⟩ : ProtocolState).bump
      ⟨10, 5, 2⟩ 21).period_info.next_subperiod_start_era = 1 + 1 + 5 ∧
    ((⟨1, 21, ⟨1, .Voting, 2⟩⟩ : ProtocolState).bump ⟨10, 5, 2⟩ 21).next_era_start
      = 21 + 10 := by
  have h := bump_era_advance ⟨10, 5, 2⟩ ⟨1, 21, ⟨1, .Voting, 2⟩⟩ 21 (by decide)
  obtain ⟨h1, h2, -⟩ := h
  obtain ⟨hv, -⟩ := h2 (by decide)
  obtain ⟨a, b, c, d⟩ := hv rfl
  exact ⟨h1, a, c, d⟩

/-- C4 counterexample: at a regular (non-period) era boundary the rollover
carries the next-era stake totals over — starting from
`current = ⟨3, 4, era 5, period 1⟩`, `next = ⟨3, 4, era 6, period 1⟩`,
`current` becomes the previous `next`, but the new `next` keeps total 7
(not zero) and is tagged with era 7 (not era+1 = 6), refuting "
next_stake_amount is reset to zero totals tagged with era+1". -/
theorem migrate_to_next_era_next_not_zeroed :
    (EraInfo.migrate_to_next_era ⟨⟨3, 4, 5, 1⟩, ⟨3, 4, 6, 1⟩⟩ none).current_stake_amount
        = ⟨3, 4, 6, 1⟩ ∧
    (EraInfo.migrate_to_next_era ⟨⟨3, 4, 5, 1⟩, ⟨3, 4, 6, 1⟩⟩ none).next_stake_amount.total
        ≠ 0 ∧
    (EraInfo.migrate_to_next_era ⟨⟨3, 4, 5, 1⟩, ⟨3, 4, 6, 1⟩⟩ none).next_stake_amount.era
        ≠ 5 + 1 := by
  decide

/-- C4 amended: at every era boundary `current_stake_amount` becomes the
previous `next_stake_amount`, and `next_stake_amount` keeps its stake
totals and period with its era tag advanced by one (it is not reset to
zero); at a period boundary both snapshots are reset to zero totals tagged
with the new period (eras `era+1` and `era+2`). -/
theorem migrate_to_next_era_spec (info : EraInfo) :
    info.migrate_to_next_era (some .Voting) =
      ⟨⟨0, 0, info.current_stake_amount.era + 1, info.current_stake_amount.period + 1⟩,
        ⟨0, 0, info.current_stake_amount.era + 2, info.current_stake_amount.period + 1⟩⟩ ∧
    info.migrate_to_next_era none =
      ⟨info.next_stake_amount,
        { info.next_stake_amount with era := info.next_stake_amount.era + 1 }⟩ ∧
    info.migrate_to_next_era (some .BuildAndEarn) =
      ⟨info.next_stake_amount,
        { info.next_stake_amount with era := info.next_stake_amount.era + 1 }⟩ ∧
    (info.migrate_to_next_era none).next_stake_amount.total =
      info.next_stake_amount.total :=
  ⟨rfl, rfl, rfl, rfl⟩

/-- C8: with `MaxBonusSafeMovesPerPeriod = 0` (default `bonus_status = 1`),
a non-full move of voting stake during Build&Earn forfeits the bonus
(`bonus_status` becomes 0) and, in any move whose resulting source bonus is
forfeited, the transferred voting component arrives at the destination as
`build_and_earn` stake. -/
theorem move_nonfull_forfeits_and_converts :
    (∀ (info : SingularStakingInfo) (amount : Nat),
      info.bonus_status = 1 → info.staked.build_and_earn = 0 →
      0 < amount → amount < info.staked.voting →
      (moveStake info .BuildAndEarn amount).source.bonus_status = 0 ∧
      (moveStake info .BuildAndEarn amount).dest_voting = 0 ∧
      (moveStake info .BuildAndEarn amount).dest_build_and_earn = amount) ∧
    (∀ (info : SingularStakingInfo) (sub : Subperiod) (amount : Nat),
      (info.unstake_from sub amount).1.bonus_status = 0 →
      (moveStake info sub amount).dest_voting = 0 ∧
      (moveStake info sub amount).dest_build_and_earn =
        (info.unstake_from sub amount).2.2 + (info.unstake_from sub amount).2.1) := by
  constructor
  · intro info amount h1 h2 h3 h4
    obtain ⟨prev, ⟨v, b, er, pe⟩, bs⟩ := info
    dsimp only at h1 h2 h4 ⊢
    subst h1 h2
    simp only [moveStake, SingularStakingInfo.unstake_from, StakeAmount.subtract]
    split_ifs <;> simp_all <;> omega
  · intro info sub amount h
    simp only [moveStake, h]
    simp

/-- C8 witness: a position with 100 voting stake and bonus counter 1 moved
partially (20 of 100) during Build&Earn, and a fully-forfeited position
moved in full. -/
theorem move_nonfull_forfeits_and_converts_witness :
    ((moveStake ⟨⟨0, 0, 0, 0⟩, ⟨100, 0, 2, 1⟩, 1⟩ .BuildAndEarn 20).source.bonus_status = 0 ∧
      (moveStake ⟨⟨0, 0, 0, 0⟩, ⟨100, 0, 2, 1⟩, 1⟩ .BuildAndEarn 20).dest_voting = 0 ∧
      (moveStake ⟨⟨0, 0, 0, 0⟩, ⟨100, 0, 2, 1⟩, 1⟩ .BuildAndEarn 20).dest_build_and_earn = 20) ∧
    ((moveStake ⟨⟨0, 0, 0, 0⟩, ⟨80, 0, 2, 1⟩, 0⟩ .BuildAndEarn 80).dest_voting = 0 ∧
      (moveStake ⟨⟨0, 0, 0, 0⟩, ⟨80, 0, 2, 1⟩, 0⟩ .BuildAndEarn 80).dest_build_and_earn =
        ((⟨⟨0, 0, 0, 0⟩, ⟨80, 0, 2, 1⟩, 0⟩ : SingularStakingInfo).unstake_from .BuildAndEarn 80).2.2 +
        ((⟨⟨0, 0, 0, 0⟩, ⟨80, 0, 2, 1⟩, 0⟩ : SingularStakingInfo).unstake_from .BuildAndEarn 80).2.1) :=
  ⟨move_nonfull_forfeits_and_converts.1 ⟨⟨0, 0, 0, 0⟩, ⟨100, 0, 2, 1⟩, 1⟩ 20
      rfl rfl (by decide) (by decide),
    move_nonfull_forfeits_and_converts.2 ⟨⟨0, 0, 0, 0⟩, ⟨80, 0, 2, 1⟩, 0⟩ .BuildAndEarn 80
      (by decide)⟩

/-- C7 counterexample: with `min_locked = 10`, an account with 101 locked
and 9 staked in the ongoing period requests a 101 unlock; the clamped
amount (92) is non-zero and the remainder (9) falls below the minimum, so
the claim predicts a full unlock — but the call fails with
`RemainingStakePreventsFullUnlock` and unlocks nothing. -/
theorem unlock_widen_blocked_counterexample :
    min ((⟨101, [], ⟨9, 0, 2, 1⟩, none⟩ : AccountLedger).unlockable_amount 1) 101 ≠ 0 ∧
    (⟨101, [], ⟨9, 0, 2, 1⟩, none⟩ : AccountLedger).active_locked_amount -
      min ((⟨101, [], ⟨9, 0, 2, 1⟩, none⟩ : AccountLedger).unlockable_amount 1) 101
      < (⟨10, 8, 3⟩ : LedgerConfig).min_locked ∧
    unlockCall ⟨10, 8, 3⟩ 1 5 ⟨101, [], ⟨9, 0, 2, 1⟩, none⟩ 101 =
      .error .RemainingStakePreventsFullUnlock := by
  exact ⟨by decide, by decide, rfl⟩

/-- C7 amended: every successful `unlock` unlocks exactly the requested
amount clamped to the unlockable amount, widened to the entire active
locked amount when the remainder would fall below `min_locked`; the
widening can only succeed when no stake for the ongoing period remains
(otherwise the call fails with `RemainingStakePreventsFullUnlock`). -/
theorem unlock_clamps_and_widens (cfg : LedgerConfig) (period blk : Nat)
    (l : AccountLedger) (amount : Nat) (l' : AccountLedger) (amt : Nat)
    (h : unlockCall cfg period blk l amount = .ok (l', amt)) :
    amt = (if l.active_locked_amount - min (l.unlockable_amount period) amount
        < cfg.min_locked
      then l.active_locked_amount
      else min (l.unlockable_amount period) amount) ∧
    l'.locked = l.locked - amt ∧
    (l.active_locked_amount - min (l.unlockable_amount period) amount
        < cfg.min_locked →
      l.staked_amount period = 0 ∧ amt = l.active_locked_amount) := by
  simp only [unlockCall] at h
  split at h
  · exact absurd h (by simp)
  · split at h
    · exact absurd h (by simp)
    · rename_i hzero hblock
      split at h
      · exact absurd h (by simp)
      · rename_i chunks hchunks
        simp only [Except.ok.injEq, Prod.mk.injEq] at h
        obtain ⟨hl, hamt⟩ := h
        subst hl
        subst hamt
        by_cases hw : l.active_locked_amount - min (l.unlockable_amount period) amount
            < cfg.min_locked
        · have hstake : l.staked_amount period = 0 := by
            by_contra hne
            exact hblock ⟨hw, hne⟩
          simp only [if_pos hw]
          exact ⟨trivial, trivial, fun _ => ⟨hstake, trivial⟩⟩
        · simp only [if_neg hw]
          exact ⟨trivial, trivial, fun hc => absurd hc hw⟩

/-- C7 amended witness: a plain clamped unlock of 7 out of 101 locked with
nothing staked. -/
theorem unlock_clamps_and_widens_witness :
    unlockCall ⟨10, 8, 3⟩ 1 5 ⟨101, [], ⟨0, 0, 0, 0⟩, none⟩ 7 =
      .ok (⟨94, [⟨7, 8⟩], ⟨0, 0, 0, 0⟩, none⟩, 7) ∧
    (7 : Nat) = min ((⟨101, [], ⟨0, 0, 0, 0⟩, none⟩ : AccountLedger).unlockable_amount 1) 7 ∧
    (⟨94, [⟨7, 8⟩], ⟨0, 0, 0, 0⟩, none⟩ : AccountLedger).locked = 101 - 7 := by
  have h := unlock_clamps_and_widens ⟨10, 8, 3⟩ 1 5 ⟨101, [], ⟨0, 0, 0, 0⟩, none⟩ 7
    ⟨94, [⟨7, 8⟩], ⟨0, 0, 0, 0⟩, none⟩ 7 rfl
  obtain ⟨h1, h2, -⟩ := h
  rw [if_neg (by decide)] at h1
  exact ⟨rfl, h1, h2⟩

/-- C10: when the requested unlock triggers the below-minimum widening but
stake in the ongoing period remains, the call fails with
`RemainingStakePreventsFullUnlock` and performs no unlock at all (an error
result carries no new ledger state). -/
theorem unlock_full_blocked_by_stake (cfg : LedgerConfig) (period blk : Nat)
    (l : AccountLedger) (amount : Nat)
    (h0 : min (l.unlockable_amount period) amount ≠ 0)
    (h1 : l.active_locked_amount - min (l.unlockable_amount period) amount
      < cfg.min_locked)
    (h2 : l.staked_amount period ≠ 0) :
    unlockCall cfg period blk l amount = .error .RemainingStakePreventsFullUnlock := by
  simp only [unlockCall]
  rw [if_neg h0, if_pos ⟨h1, h2⟩]

/-- C10 witness: 50 locked, 5 staked, `min_locked = 20`; the 50-unlock
request widens (remainder 5 < 20) and is rejected. -/
theorem unlock_full_blocked_by_stake_witness :
    unlockCall ⟨20, 8, 3⟩ 1 4 ⟨50, [], ⟨5, 0, 2, 1⟩, none⟩ 50 =
      .error .RemainingStakePreventsFullUnlock :=
  unlock_full_blocked_by_stake ⟨20, 8, 3⟩ 1 4 ⟨50, [], ⟨5, 0, 2, 1⟩, none⟩ 50
    (by decide) (by decide) (by decide)

lemma fillTier_occ_length (u th : Nat) : ∀ (n : Nat) (l : List (Nat × Nat)),
    ((fillTier u th n l).1).length ≤ n := by
  intro n l
  induction l generalizing n with
  | nil => cases n <;> simp [fillTier]
  | cons p rest ih =>
    obtain ⟨d, s⟩ := p
    cases n with
    | zero => simp [fillTier]
    | succ m =>
      by_cases h : th ≤ s
      · simp only [fillTier, if_pos h, List.length_cons]
        exact Nat.succ_le_succ (ih m)
      · simp [fillTier, if_neg h]

lemma fillTier_occ_mem (u th : Nat) : ∀ (n : Nat) (l : List (Nat × Nat)) (d s r : Nat),
    (d, s, r) ∈ (fillTier u th n l).1 → (d, s) ∈ l ∧ th ≤ s := by
  intro n l
  induction l generalizing n with
  | nil => intro d s r h; cases n <;> simp [fillTier] at h
  | cons p rest ih =>
    obtain ⟨d0, s0⟩ := p
    intro d s r h
    cases n with
    | zero => simp [fillTier] at h
    | succ m =>
      by_cases hc : th ≤ s0
      · simp only [fillTier, if_pos hc, List.mem_cons] at h
        rcases h with h | h
        · simp only [Prod.mk.injEq] at h
          obtain ⟨hd, hs, -⟩ := h
          subst hd; subst hs
          exact ⟨List.mem_cons_self _ _, hc⟩
        · obtain ⟨h1, h2⟩ := ih m d s r h
          exact ⟨List.mem_cons_of_mem _ h1, h2⟩
      · simp [fillTier, if_neg hc] at h

lemma fillTier_rest_mem (u th : Nat) : ∀ (n : Nat) (l : List (Nat × Nat)) (p : Nat × Nat),
    p ∈ (fillTier u th n l).2 → p ∈ l := by
  intro n l
  induction l generalizing n with
  | nil => intro p h; cases n <;> simp [fillTier] at h
  | cons q rest ih =>
    obtain ⟨d0, s0⟩ := q
    intro p h
    cases n with
    | zero => simp only [fillTier] at h; exact h
    | succ m =>
      by_cases hc : th ≤ s0
      · simp only [fillTier, if_pos hc] at h
        exact List.mem_cons_of_mem _ (ih m p h)
      · simp only [fillTier, if_neg hc] at h
        exact h

lemma processTiers_tier_ge (pool : Nat) : ∀ (tiers : List TierSpec) (u idx : Nat)
    (stakes : List (Nat × Nat)) (e : Nat × Nat × Nat),
    e ∈ (processTiers pool u idx tiers stakes).dapps → idx ≤ e.2.1 := by
  intro tiers
  induction tiers with
  | nil => intro u idx stakes e h; simp [processTiers] at h
  | cons t tiers ih =>
    intro u idx stakes e h
    simp only [processTiers, List.mem_append, List.mem_map] at h
    rcases h with ⟨a, ha, rfl⟩ | h
    · simp
    · exact Nat.le_of_succ_le (ih t.threshold (idx + 1) _ e h)

lemma processTiers_mem (pool : Nat) : ∀ (tiers : List TierSpec) (u idx : Nat)
    (stakes : List (Nat × Nat)) (d t r : Nat),
    (d, t, r) ∈ (processTiers pool u idx tiers stakes).dapps →
    ∃ spec s, tiers.get? (t - idx) = some spec ∧ (d, s) ∈ stakes ∧ spec.threshold ≤ s := by
  intro tiers
  induction tiers with
  | nil => intro u idx stakes d t r h; simp [processTiers] at h
  | cons tsp tiers ih =>
    intro u idx stakes d t r h
    simp only [processTiers, List.mem_append, List.mem_map] at h
    rcases h with ⟨a, ha, heq⟩ | h
    · obtain ⟨a1, a2, a3⟩ := a
      simp only [Prod.mk.injEq] at heq
      obtain ⟨hd, ht, -⟩ := heq
      subst hd; subst ht
      have hm := fillTier_occ_mem u tsp.threshold tsp.slots stakes a1 a2 a3 ha
      exact ⟨tsp, a2, by simp, hm.1, hm.2⟩
    · obtain ⟨spec, s, hget, hmem, hth⟩ := ih tsp.threshold (idx + 1) _ d t r h
      have htge := processTiers_tier_ge pool tiers tsp.threshold (idx + 1) _ _ h
      refine ⟨spec, s, ?_, fillTier_rest_mem u tsp.threshold tsp.slots stakes _ hmem, hth⟩
      have hsub : t - idx = (t - (idx + 1)) + 1 := by
        simp only at htge
        omega
      rw [hsub, List.get?_cons_succ]
      exact hget

lemma processTiers_occ_head (pool u idx : Nat) (tsp : TierSpec) (tiers : List TierSpec)
    (stakes : List (Nat × Nat)) :
    (processTiers pool u idx (tsp :: tiers) stakes).tierOccupants idx =
      ((fillTier u tsp.threshold tsp.slots stakes).1).map (fun e => (e.1, idx, e.2.2)) := by
  simp only [TierAssignment.tierOccupants, processTiers, List.filter_append]
  have h1 : (((fillTier u tsp.threshold tsp.slots stakes).1).map
      (fun e => (e.1, idx, e.2.2))).filter (fun e => e.2.1 == idx) =
      ((fillTier u tsp.threshold tsp.slots stakes).1).map (fun e => (e.1, idx, e.2.2)) := by
    rw [List.filter_eq_self]
    intro a ha
    simp only [List.mem_map] at ha
    obtain ⟨b, hb, rfl⟩ := ha
    simp
  have h2 : ((processTiers pool tsp.threshold (idx + 1) tiers
      (fillTier u tsp.threshold tsp.slots stakes).2).dapps).filter
      (fun e => e.2.1 == idx) = [] := by
    rw [List.filter_eq_nil_iff]
    intro e he
    have := processTiers_tier_ge pool tiers tsp.threshold (idx + 1) _ e he
    simp only [beq_iff_eq]
    omega
  rw [h1, h2, List.append_nil]

lemma processTiers_occ_shift (pool u idx : Nat) (tsp : TierSpec) (tiers : List TierSpec)
    (stakes : List (Nat × Nat)) (j : Nat) :
    (processTiers pool u idx (tsp :: tiers) stakes).tierOccupants (idx + j + 1) =
      (processTiers pool tsp.threshold (idx + 1) tiers
        (fillTier u tsp.threshold tsp.slots stakes).2).tierOccupants (idx + j + 1) := by
  simp only [TierAssignment.tierOccupants, processTiers, List.filter_append]
  have h1 : (((fillTier u tsp.threshold tsp.slots stakes).1).map
      (fun e => (e.1, idx, e.2.2))).filter (fun e => e.2.1 == idx + j + 1) = [] := by
    rw [List.filter_eq_nil_iff]
    intro a ha
    simp only [List.mem_map] at ha
    obtain ⟨b, hb, rfl⟩ := ha
    simp only [beq_iff_eq]
    omega
  rw [h1, List.nil_append]

lemma processTiers_occ_count (pool : Nat) : ∀ (tiers : List TierSpec) (u idx : Nat)
    (stakes : List (Nat × Nat)) (j : Nat) (spec : TierSpec), tiers.get? j = some spec →
    ((processTiers pool u idx tiers stakes).tierOccupants (idx + j)).length ≤ spec.slots := by
  intro tiers
  induction tiers with
  | nil => intro u idx stakes j spec h; simp at h
  | cons tsp tiers ih =>
    intro u idx stakes j spec h
    cases j with
    | zero =>
      simp only [List.get?_cons_zero, Option.some.injEq] at h
      subst h
      rw [Nat.add_zero, processTiers_occ_head, List.length_map]
      exact fillTier_occ_length u tsp.threshold tsp.slots stakes
    | succ j =>
      rw [show idx + (j + 1) = idx + j + 1 by omega, processTiers_occ_shift]
      rw [show idx + j + 1 = (idx + 1) + j by omega]
      exact ih tsp.threshold (idx + 1) _ j spec (by simpa using h)

lemma processTiers_rank_reward (pool : Nat) : ∀ (tiers : List TierSpec) (u idx : Nat)
    (stakes : List (Nat × Nat)) (j : Nat) (spec : TierSpec), tiers.get? j = some spec →
    (processTiers pool u idx tiers stakes).rank_rewards.get? j =
      some (if 0 < spec.slots -
            ((processTiers pool u idx tiers stakes).tierOccupants (idx + j)).length ∧
            0 < (processTiers pool u idx tiers stakes).tierRanksSum (idx + j)
        then min (spec.slotReward pool *
              (spec.slots -
                ((processTiers pool u idx tiers stakes).tierOccupants (idx + j)).length) /
              (processTiers pool u idx tiers stakes).tierRanksSum (idx + j))
            (spec.slotReward pool / rankCount)
        else 0) := by
  intro tiers
  induction tiers with
  | nil => intro u idx stakes j spec h; simp at h
  | cons tsp tiers ih =>
    intro u idx stakes j spec h
    cases j with
    | zero =>
      simp only [List.get?_cons_zero, Option.some.injEq] at h
      subst h
      rw [Nat.add_zero]
      simp only [TierAssignment.tierRanksSum, processTiers_occ_head, List.map_map,
        List.length_map]
      simp only [processTiers, List.get?_cons_zero, TierSpec.slotReward, Option.some.injEq]
      congr 1
    | succ j =>
      simp only [TierAssignment.tierRanksSum]
      rw [show idx + (j + 1) = idx + j + 1 by omega, processTiers_occ_shift]
      have IH := ih tsp.threshold (idx + 1) (fillTier u tsp.threshold tsp.slots stakes).2
        j spec (by simpa using h)
      simp only [TierAssignment.tierRanksSum] at IH
      rw [show (idx + 1) + j = idx + j + 1 by omega] at IH
      simp only [processTiers, List.get?_cons_succ]
      exact IH

lemma insertByStakeDesc_mem (p q : Nat × Nat) : ∀ (l : List (Nat × Nat)),
    q ∈ insertByStakeDesc p l → q = p ∨ q ∈ l := by
  intro l
  induction l with
  | nil =>
    intro h
    simp only [insertByStakeDesc, List.mem_cons, List.not_mem_nil, or_false] at h
    exact Or.inl h
  | cons a rest ih =>
    intro h
    simp only [List.mem_cons]
    by_cases hc : a.2 < p.2
    · simp only [insertByStakeDesc, if_pos hc, List.mem_cons] at h
      tauto
    · simp only [insertByStakeDesc, if_neg hc, List.mem_cons] at h
      rcases h with h | h
      · tauto
      · rcases ih h with h' | h' <;> tauto

lemma sortByStakeDesc_mem (q : Nat × Nat) : ∀ (l : List (Nat × Nat)),
    q ∈ sortByStakeDesc l → q ∈ l := by
  intro l
  induction l with
  | nil => intro h; simp [sortByStakeDesc] at h
  | cons a rest ih =>
    intro h
    simp only [sortByStakeDesc] at h
    simp only [List.mem_cons]
    rcases insertByStakeDesc_mem a q _ h with h' | h'
    · tauto
    · exact Or.inr (ih h')

lemma insertByStakeDesc_perm (p : Nat × Nat) : ∀ (l : List (Nat × Nat)),
    List.Perm (insertByStakeDesc p l) (p :: l) := by
  intro l
  induction l with
  | nil => exact List.Perm.refl _
  | cons q rest ih =>
    by_cases hc : q.2 < p.2
    · simp only [insertByStakeDesc, if_pos hc]
      exact List.Perm.refl _
    · simp only [insertByStakeDesc, if_neg hc]
      exact (ih.cons q).trans (List.Perm.swap p q rest)

lemma sortByStakeDesc_perm : ∀ (l : List (Nat × Nat)),
    List.Perm (sortByStakeDesc l) l := by
  intro l
  induction l with
  | nil => exact List.Perm.refl _
  | cons p rest ih =>
    exact (insertByStakeDesc_perm p (sortByStakeDesc rest)).trans (ih.cons p)

lemma insertByStakeDesc_pairwise (p : Nat × Nat) : ∀ (l : List (Nat × Nat)),
    List.Pairwise (fun a b => b.2 ≤ a.2) l →
    List.Pairwise (fun a b => b.2 ≤ a.2) (insertByStakeDesc p l) := by
  intro l
  induction l with
  | nil =>
    intro _
    simp [insertByStakeDesc]
  | cons q rest ih =>
    intro hp
    rw [List.pairwise_cons] at hp
    by_cases hc : q.2 < p.2
    · simp only [insertByStakeDesc, if_pos hc]
      rw [List.pairwise_cons]
      constructor
      · intro b hb
        rcases List.mem_cons.mp hb with rfl | hb
        · omega
        · have := hp.1 b hb
          omega
      · rw [List.pairwise_cons]
        exact ⟨hp.1, hp.2⟩
    · simp only [insertByStakeDesc, if_neg hc]
      rw [List.pairwise_cons]
      constructor
      · intro b hb
        rcases insertByStakeDesc_mem p b rest hb with rfl | hb
        · omega
        · exact hp.1 b hb
      · exact ih hp.2

lemma sortByStakeDesc_pairwise : ∀ (l : List (Nat × Nat)),
    List.Pairwise (fun a b => b.2 ≤ a.2) (sortByStakeDesc l) := by
  intro l
  induction l with
  | nil => exact List.Pairwise.nil
  | cons p rest ih => exact insertByStakeDesc_pairwise p _ ih

lemma fillTier_split (u th : Nat) : ∀ (n : Nat) (l : List (Nat × Nat)),
    ((fillTier u th n l).1.map (fun e => (e.1, e.2.1))) ++ (fillTier u th n l).2 = l := by
  intro n l
  induction l generalizing n with
  | nil => cases n <;> simp [fillTier]
  | cons p rest ih =>
    obtain ⟨d, s⟩ := p
    cases n with
    | zero => simp [fillTier]
    | succ m =>
      by_cases h : th ≤ s
      · simp only [fillTier, if_pos h, List.map_cons, List.cons_append]
        rw [ih m]
      · simp [fillTier, if_neg h]

lemma nodup_ids_stake_eq : ∀ (l : List (Nat × Nat)) (d a b : Nat),
    (l.map Prod.fst).Nodup → (d, a) ∈ l → (d, b) ∈ l → a = b := by
  intro l
  induction l with
  | nil =>
    intro d a b _ ha _
    simp at ha
  | cons q rest ih =>
    intro d a b hnd ha hb
    rw [List.map_cons, List.nodup_cons] at hnd
    rcases List.mem_cons.mp ha with h1 | h1 <;>
      rcases List.mem_cons.mp hb with h2 | h2
    · exact congrArg Prod.snd (h1.trans h2.symm)
    · have hd : d ∈ List.map Prod.fst rest := by
        simpa using List.mem_map_of_mem Prod.fst h2
      have hq : q.1 = d := by rw [← h1]
      rw [hq] at hnd
      exact absurd hd hnd.1
    · have hd : d ∈ List.map Prod.fst rest := by
        simpa using List.mem_map_of_mem Prod.fst h1
      have hq : q.1 = d := by rw [← h2]
      rw [hq] at hnd
      exact absurd hd hnd.1
    · exact ih d a b hnd.2 h1 h2

lemma processTiers_no_skip (pool : Nat) : ∀ (tiers : List TierSpec) (u idx : Nat)
    (stakes : List (Nat × Nat)),
    List.Pairwise (fun a b => b.2 ≤ a.2) stakes →
    (stakes.map Prod.fst).Nodup →
    ∀ (d1 s1 d2 s2 t2 r2 : Nat) (spec : TierSpec),
      (d1, s1) ∈ stakes → (d2, s2) ∈ stakes →
      (d2, t2, r2) ∈ (processTiers pool u idx tiers stakes).dapps →
      tiers.get? (t2 - idx) = some spec →
      spec.threshold ≤ s1 → s2 < s1 →
      ∃ t1 r1, (d1, t1, r1) ∈ (processTiers pool u idx tiers stakes).dapps ∧ t1 ≤ t2 := by
  intro tiers
  induction tiers with
  | nil =>
    intro u idx stakes _ _ d1 s1 d2 s2 t2 r2 spec _ _ hplaced _ _ _
    simp [processTiers] at hplaced
  | cons tsp tiers ih =>
    intro u idx stakes hpw hnd d1 s1 d2 s2 t2 r2 spec hm1 hm2 hplaced hget hth hlt
    have hsplit := fillTier_split u tsp.threshold tsp.slots stakes
    rw [← hsplit] at hpw hnd hm1 hm2
    rw [List.pairwise_append] at hpw
    obtain ⟨pwO, pwR, cross⟩ := hpw
    rw [List.map_append] at hnd
    simp only [processTiers, List.mem_append, List.mem_map] at hplaced
    rcases hplaced with ⟨e, he, heq⟩ | hplaced
    · -- d2 occupies the head tier: t2 = idx
      obtain ⟨e1, e2, e3⟩ := e
      simp only [Prod.mk.injEq] at heq
      obtain ⟨hd2, ht2, hr2⟩ := heq
      have heO : ((e1, e2) : Nat × Nat) ∈
          (fillTier u tsp.threshold tsp.slots stakes).1.map (fun e => (e.1, e.2.1)) :=
        List.mem_map_of_mem _ he
      rcases List.mem_append.mp hm1 with h1O | h1R
      · -- d1 is also an occupant of the head tier
        rw [List.mem_map] at h1O
        obtain ⟨f, hf, hfe⟩ := h1O
        have hf1 : f.1 = d1 := congrArg Prod.fst hfe
        refine ⟨idx, f.2.2, ?_, by omega⟩
        simp only [processTiers, List.mem_append, List.mem_map]
        left
        exact ⟨f, hf, by rw [hf1]⟩
      · -- impossible: d1 would sit below d2 in the sorted list despite a larger stake
        have hle : s1 ≤ e2 := cross _ heO _ h1R
        have heM : ((d2, e2) : Nat × Nat) ∈
            (fillTier u tsp.threshold tsp.slots stakes).1.map (fun e => (e.1, e.2.1)) ++
              (fillTier u tsp.threshold tsp.slots stakes).2 := by
          rw [← hd2]
          exact List.mem_append_left _ heO
        have he2 : e2 = s2 :=
          nodup_ids_stake_eq _ d2 e2 s2 (by rw [List.map_append]; exact hnd) heM hm2
        omega
    · -- d2 is placed by one of the lower tiers
      have ht2ge := processTiers_tier_ge pool tiers tsp.threshold (idx + 1) _ _ hplaced
      simp only at ht2ge
      obtain ⟨spec', s', hget', hmem', hth'⟩ :=
        processTiers_mem pool tiers tsp.threshold (idx + 1) _ d2 t2 r2 hplaced
      have hs' : s' = s2 :=
        nodup_ids_stake_eq _ d2 s' s2 (by rw [List.map_append]; exact hnd)
          (List.mem_append_right _ hmem') hm2
      subst hs'
      have hgett : tiers.get? (t2 - (idx + 1)) = some spec := by
        have hidx : t2 - idx = (t2 - (idx + 1)) + 1 := by omega
        rw [hidx, List.get?_cons_succ] at hget
        exact hget
      rcases List.mem_append.mp hm1 with h1O | h1R
      · -- d1 occupies the head tier, strictly above t2
        rw [List.mem_map] at h1O
        obtain ⟨f, hf, hfe⟩ := h1O
        have hf1 : f.1 = d1 := congrArg Prod.fst hfe
        refine ⟨idx, f.2.2, ?_, by omega⟩
        simp only [processTiers, List.mem_append, List.mem_map]
        left
        exact ⟨f, hf, by rw [hf1]⟩
      · -- both candidates stay in the remainder: induction hypothesis
        have hndR : (((fillTier u tsp.threshold tsp.slots stakes).2).map Prod.fst).Nodup :=
          (List.nodup_append.mp hnd).2.1
        obtain ⟨t1, r1, hmem1, hle1⟩ := ih tsp.threshold (idx + 1) _ pwR hndR
          d1 s1 d2 s' t2 r2 spec h1R hmem' hplaced hgett hth hlt
        refine ⟨t1, r1, ?_, hle1⟩
        simp only [processTiers, List.mem_append]
        right
        exact hmem1

/-- C1 amended: (i) every placed dApp clears its assigned tier's threshold
and each tier holds at most `slots` occupants; (ii) tiers are filled from
the top of the stake-sorted list — with distinct dApp ids, any dApp whose
stake strictly exceeds that of a placed dApp and clears the latter's tier
threshold is itself placed, in the same or a more exclusive tier.  Hence a
dApp that clears a tier's threshold but is not among the top `slots` dApps
of that tier never occupies that tier; it remains a candidate for lower
tiers and can appear in `dapps` with a strictly lower tier, as the
counterexample exhibits. -/
theorem tier_occupancy_capped_no_skip (tiers : List TierSpec)
    (stakes : List (Nat × Nat)) (pool : Nat) :
    (∀ d t r, (d, t, r) ∈ (getDappTierAssignment tiers stakes pool).dapps →
      ∃ spec, tiers.get? t = some spec ∧
        (∃ s, (d, s) ∈ stakes ∧ 0 < s ∧ spec.threshold ≤ s) ∧
        ((getDappTierAssignment tiers stakes pool).tierOccupants t).length
          ≤ spec.slots) ∧
    ((stakes.map Prod.fst).Nodup →
      ∀ (d1 s1 d2 s2 t2 r2 : Nat) (spec : TierSpec),
        (d1, s1) ∈ stakes → 0 < s1 → (d2, s2) ∈ stakes →
        (d2, t2, r2) ∈ (getDappTierAssignment tiers stakes pool).dapps →
        tiers.get? t2 = some spec → spec.threshold ≤ s1 → s2 < s1 →
        ∃ t1 r1, (d1, t1, r1) ∈ (getDappTierAssignment tiers stakes pool).dapps ∧
          t1 ≤ t2) := by
  constructor
  · intro d t r h
    obtain ⟨spec, s, hget, hmem, hth⟩ :=
      processTiers_mem pool tiers 0 0 _ d t r h
    rw [Nat.sub_zero] at hget
    have hmem' := sortByStakeDesc_mem _ _ hmem
    rw [List.mem_filter] at hmem'
    refine ⟨spec, hget, ⟨s, hmem'.1, by simpa using hmem'.2, hth⟩, ?_⟩
    have := processTiers_occ_count pool tiers 0 0
      (sortByStakeDesc (stakes.filter (fun p => 0 < p.2))) t spec hget
    simpa using this
  · intro hnd d1 s1 d2 s2 t2 r2 spec hm1 h1pos hm2 hplaced hget hth hlt
    have hfsub : (stakes.filter (fun p => 0 < p.2)).Sublist stakes :=
      List.filter_sublist _
    have hndf : ((stakes.filter (fun p => 0 < p.2)).map Prod.fst).Nodup :=
      List.Nodup.sublist (hfsub.map Prod.fst) hnd
    have hperm := sortByStakeDesc_perm (stakes.filter (fun p => 0 < p.2))
    have hnds : ((sortByStakeDesc (stakes.filter (fun p => 0 < p.2))).map
        Prod.fst).Nodup := ((hperm.map Prod.fst).nodup_iff).mpr hndf
    have hpws := sortByStakeDesc_pairwise (stakes.filter (fun p => 0 < p.2))
    have hm1s : (d1, s1) ∈ sortByStakeDesc (stakes.filter (fun p => 0 < p.2)) :=
      hperm.mem_iff.mpr (List.mem_filter.mpr ⟨hm1, by simpa using h1pos⟩)
    unfold getDappTierAssignment at hplaced ⊢
    obtain ⟨spec', s', hget', hm2s', hth'⟩ :=
      processTiers_mem pool tiers 0 0 _ d2 t2 r2 hplaced
    have hm2stakes : (d2, s') ∈ stakes :=
      (List.mem_filter.mp (hperm.mem_iff.mp hm2s')).1
    have hs'eq : s' = s2 := nodup_ids_stake_eq stakes d2 s' s2 hnd hm2stakes hm2
    subst hs'eq
    exact processTiers_no_skip pool tiers 0 0 _ hpws hnds d1 s1 d2 s' t2 r2 spec
      hm1s hm2s' hplaced (by rw [Nat.sub_zero]; exact hget) hth hlt

/-- C1 witness: a two-tier configuration (1 slot above threshold 50, then
2 slots above threshold 10) with dApps 1 and 2 staking 60 and 70; dApp 2
takes tier 0, and the no-skip part applied to the placed dApp 1 (tier 1)
recovers dApp 2's placement at a tier index at most 1. -/
theorem tier_occupancy_capped_no_skip_witness :
    (∃ spec, [(⟨400000, 1, 50⟩ : TierSpec), ⟨300000, 2, 10⟩].get? 0 = some spec ∧
      (∃ s, ((2 : Nat), s) ∈ [((1 : Nat), (60 : Nat)), (2, 70)] ∧ 0 < s ∧
        spec.threshold ≤ s) ∧
      ((getDappTierAssignment [⟨400000, 1, 50⟩, ⟨300000, 2, 10⟩] [(1, 60), (2, 70)]
        1000000).tierOccupants 0).length ≤ spec.slots) ∧
    (∃ t1 r1, ((2 : Nat), t1, r1) ∈ (getDappTierAssignment
        [⟨400000, 1, 50⟩, ⟨300000, 2, 10⟩] [(1, 60), (2, 70)] 1000000).dapps ∧
      t1 ≤ 1) :=
  ⟨(tier_occupancy_capped_no_skip [⟨400000, 1, 50⟩, ⟨300000, 2, 10⟩]
      [(1, 60), (2, 70)] 1000000).1 2 0 0 (by decide),
    (tier_occupancy_capped_no_skip [⟨400000, 1, 50⟩, ⟨300000, 2, 10⟩]
      [(1, 60), (2, 70)] 1000000).2 (by decide) 2 70 1 60 1 10 ⟨300000, 2, 10⟩
      (by decide) (by decide) (by decide) (by decide) (by decide) (by decide)
      (by decide)⟩

/-- C1 counterexample: the configuration of the in-repo test
`ranking_will_calc_reward_correctly` (thresholds 100/50/20/15, slots
2/3/2/20).  dApp 2 stakes exactly 100, clearing tier 0's threshold, but
dApps 1 and 0 (stakes 102, 101) take tier 0's two slots; contrary to the
claim, dApp 2 falls through to tier 1 (rank 10) and does appear in the
`dapps` map. -/
theorem tier_cut_falls_to_lower_tier :
    (getDappTierAssignment
        [⟨400000, 2, 100⟩, ⟨300000, 3, 50⟩, ⟨200000, 2, 20⟩, ⟨100000, 20, 15⟩]
        [(0, 101), (1, 102), (2, 100), (3, 99), (4, 15), (5, 49), (6, 35), (7, 14)]
        1000000).dapps =
      [(1, 0, 0), (0, 0, 0), (2, 1, 10), (3, 1, 9), (5, 2, 9), (6, 2, 5), (4, 3, 0)] ∧
    (⟨400000, 2, 100⟩ : TierSpec).threshold ≤ 100 ∧
    (2, 1, 10) ∈ (getDappTierAssignment
        [⟨400000, 2, 100⟩, ⟨300000, 3, 50⟩, ⟨200000, 2, 20⟩, ⟨100000, 20, 15⟩]
        [(0, 101), (1, 102), (2, 100), (3, 99), (4, 15), (5, 49), (6, 35), (7, 14)]
        1000000).dapps ∧
    (∀ e ∈ (getDappTierAssignment
        [⟨400000, 2, 100⟩, ⟨300000, 3, 50⟩, ⟨200000, 2, 20⟩, ⟨100000, 20, 15⟩]
        [(0, 101), (1, 102), (2, 100), (3, 99), (4, 15), (5, 49), (6, 35), (7, 14)]
        1000000).dapps, e.1 = 2 → e.2.1 = 1) := by
  decide

/-- C5 amended: the per-rank reward of a tier is the claim's
empty-slot-allocation formula *capped at one tenth of the tier's slot
reward*, applied only when the tier has both empty slots and ranked
occupants; in particular a fully-occupied tier always gets rank reward
zero. -/
theorem rank_reward_capped_formula (tiers : List TierSpec) (stakes : List (Nat × Nat))
    (pool j : Nat) (spec : TierSpec) (h : tiers.get? j = some spec) :
    (getDappTierAssignment tiers stakes pool).rank_rewards.get? j =
      some (if 0 < spec.slots -
            ((getDappTierAssignment tiers stakes pool).tierOccupants j).length ∧
            0 < (getDappTierAssignment tiers stakes pool).tierRanksSum j
        then min (rankRewardSpecWords (spec.slotReward pool)
              (spec.slots -
                ((getDappTierAssignment tiers stakes pool).tierOccupants j).length)
              ((getDappTierAssignment tiers stakes pool).tierRanksSum j))
            (spec.slotReward pool / rankCount)
        else 0) ∧
    (((getDappTierAssignment tiers stakes pool).tierOccupants j).length = spec.slots →
      (getDappTierAssignment tiers stakes pool).rank_rewards.get? j = some 0) := by
  have H := processTiers_rank_reward pool tiers 0 0
    (sortByStakeDesc (stakes.filter (fun p => 0 < p.2))) j spec h
  rw [Nat.zero_add] at H
  unfold getDappTierAssignment
  constructor
  · simpa only [rankRewardSpecWords] using H
  · intro hfull
    rw [H, hfull]
    simp

/-- C5 witness: a single-tier run with one unranked occupant (rank sum 0),
where the rank reward is zero. -/
theorem rank_reward_capped_formula_witness :
    (getDappTierAssignment [⟨500000, 2, 50⟩] [(1, 60)] 1000000).rank_rewards.get? 0 =
      some (if 0 < (⟨500000, 2, 50⟩ : TierSpec).slots -
            ((getDappTierAssignment [⟨500000, 2, 50⟩] [(1, 60)] 1000000).tierOccupants 0).length ∧
            0 < (getDappTierAssignment [⟨500000, 2, 50⟩] [(1, 60)] 1000000).tierRanksSum 0
        then min (rankRewardSpecWords ((⟨500000, 2, 50⟩ : TierSpec).slotReward 1000000)
              ((⟨500000, 2, 50⟩ : TierSpec).slots -
                ((getDappTierAssignment [⟨500000, 2, 50⟩] [(1, 60)] 1000000).tierOccupants 0).length)
              ((getDappTierAssignment [⟨500000, 2, 50⟩] [(1, 60)] 1000000).tierRanksSum 0))
            ((⟨500000, 2, 50⟩ : TierSpec).slotReward 1000000 / rankCount)
        else 0) ∧
    (((getDappTierAssignment [⟨500000, 2, 50⟩] [(1, 60)] 1000000).tierOccupants 0).length =
        (⟨500000, 2, 50⟩ : TierSpec).slots →
      (getDappTierAssignment [⟨500000, 2, 50⟩] [(1, 60)] 1000000).rank_rewards.get? 0 = some 0) :=
  rank_reward_capped_formula [⟨500000, 2, 50⟩] [(1, 60)] 1000000 0 ⟨500000, 2, 50⟩ (by decide)

/-- C5 counterexample: the configuration of the in-repo test
`get_dapp_tier_assignment_and_rewards_basic_example_works` (slots
2/5/13/20).  Tier 1 has two occupants with ranks 10 and 9 and three empty
slots; the claim's formula `slots_empty_allocation / ranks_sum` gives
`60000 × 3 / 19 = 9473`, but the computed rank reward is the capped value
6000 (= slot reward / 10), exactly as the in-repo test asserts. -/
theorem rank_reward_not_spec_words :
    (getDappTierAssignment
        [⟨400000, 2, 100⟩, ⟨300000, 5, 50⟩, ⟨200000, 13, 20⟩, ⟨100000, 20, 15⟩]
        [(0, 101), (1, 102), (2, 100), (3, 99), (4, 16), (5, 15), (6, 14)]
        1000000).rank_rewards = [0, 6000, 0, 0] ∧
    ((getDappTierAssignment
        [⟨400000, 2, 100⟩, ⟨300000, 5, 50⟩, ⟨200000, 13, 20⟩, ⟨100000, 20, 15⟩]
        [(0, 101), (1, 102), (2, 100), (3, 99), (4, 16), (5, 15), (6, 14)]
        1000000).tierOccupants 1).length = 2 ∧
    (getDappTierAssignment
        [⟨400000, 2, 100⟩, ⟨300000, 5, 50⟩, ⟨200000, 13, 20⟩, ⟨100000, 20, 15⟩]
        [(0, 101), (1, 102), (2, 100), (3, 99), (4, 16), (5, 15), (6, 14)]
        1000000).tierRanksSum 1 = 19 ∧
    TierSpec.slotReward ⟨300000, 5, 50⟩ 1000000 = 60000 ∧
    rankRewardSpecWords 60000 (5 - 2) 19 = 9473 ∧
    (getDappTierAssignment
        [⟨400000, 2, 100⟩, ⟨300000, 5, 50⟩, ⟨200000, 13, 20⟩, ⟨100000, 20, 15⟩]
        [(0, 101), (1, 102), (2, 100), (3, 99), (4, 16), (5, 15), (6, 14)]
        1000000).rank_rewards.get? 1 ≠ some (rankRewardSpecWords 60000 (5 - 2) 19) := by
  decide

lemma subtract_total (s : StakeAmount) (x : Nat) :
    (s.subtract x).total = s.total - x := by
  simp only [StakeAmount.subtract, StakeAmount.total]
  omega

lemma subtract_period (s : StakeAmount) (x : Nat) :
    (s.subtract x).period = s.period := rfl

lemma invariant_amount_bounds (l : AccountLedger) (p : Nat) (h : LedgerInvariant l p) :
    l.staked_entry_amount p ≤ l.staked_amount p ∧
    l.future_entry_amount p ≤ l.staked_amount p ∧
    l.staked_amount p ≤ l.locked := by
  obtain ⟨lk, ch, ⟨sv, sb, se, sp⟩, fut⟩ := l
  obtain ⟨h1, h2, h3⟩ := h
  cases fut with
  | none =>
    simp only [LedgerInvariant, AccountLedger.staked_amount,
      AccountLedger.staked_entry_amount, AccountLedger.future_entry_amount,
      StakeAmount.total] at *
    split_ifs at * <;> omega
  | some f =>
    obtain ⟨fv, fb, fe, fp⟩ := f
    simp only [LedgerInvariant, AccountLedger.staked_amount,
      AccountLedger.staked_entry_amount, AccountLedger.future_entry_amount,
      StakeAmount.total, Option.isSome_some, forall_const] at *
    split_ifs at * <;> omega

lemma roll_for_era_locked (l : AccountLedger) (e : Nat) :
    (l.roll_for_era e).locked = l.locked := by
  obtain ⟨lk, ch, st, fut⟩ := l
  cases fut with
  | none => rfl
  | some f =>
    simp only [AccountLedger.roll_for_era]
    split <;> rfl

lemma roll_for_era_inv (l : AccountLedger) (e p : Nat) (h : LedgerInvariant l p) :
    LedgerInvariant (l.roll_for_era e) p := by
  obtain ⟨lk, ch, ⟨sv, sb, se, sp⟩, fut⟩ := l
  cases fut with
  | none => exact h
  | some f =>
    obtain ⟨fv, fb, fe, fp⟩ := f
    obtain ⟨h1, h2, h3⟩ := h
    simp only [LedgerInvariant, AccountLedger.staked_entry_amount,
      AccountLedger.future_entry_amount, StakeAmount.total, Option.isSome_some,
      forall_const] at h1 h2 h3
    by_cases hroll : fe ≤ e
    · simp only [AccountLedger.roll_for_era, if_pos hroll, LedgerInvariant,
        AccountLedger.staked_entry_amount, AccountLedger.future_entry_amount,
        StakeAmount.total, Option.isSome_none]
      exact ⟨h2, Nat.zero_le _, fun hh => absurd hh (by simp)⟩
    · simp only [AccountLedger.roll_for_era, if_neg hroll, LedgerInvariant,
        AccountLedger.staked_entry_amount, AccountLedger.future_entry_amount,
        StakeAmount.total, Option.isSome_some, forall_const]
      exact ⟨h1, h2, h3⟩

lemma roll_for_era_staked_amount_le (l : AccountLedger) (e p : Nat) :
    (l.roll_for_era e).staked_amount p ≤ l.staked_amount p := by
  obtain ⟨lk, ch, ⟨sv, sb, se, sp⟩, fut⟩ := l
  cases fut with
  | none => exact Nat.le_refl _
  | some f =>
    obtain ⟨fv, fb, fe, fp⟩ := f
    by_cases hroll : fe ≤ e
    · simp only [AccountLedger.roll_for_era, if_pos hroll, AccountLedger.staked_amount,
        StakeAmount.total]
      split_ifs <;> omega
    · simp only [AccountLedger.roll_for_era, if_neg hroll]
      exact Nat.le_refl _

lemma unlockCall_ok_state (cfg : LedgerConfig) (p blk : Nat) (l : AccountLedger)
    (a : Nat) (l' : AccountLedger) (amt : Nat)
    (heq : unlockCall cfg p blk l a = .ok (l', amt)) :
    l'.staked = l.staked ∧ l'.staked_future = l.staked_future ∧
    ((l'.locked = l.locked - amt ∧ amt ≤ l.unlockable_amount p) ∨
      (l'.locked = 0 ∧ l.staked_amount p = 0)) := by
  simp only [unlockCall] at heq
  split at heq
  · exact absurd heq (by simp)
  · split at heq
    · exact absurd heq (by simp)
    · rename_i hzero hblock
      split at heq
      · exact absurd heq (by simp)
      · rename_i chunks hchunks
        simp only [Except.ok.injEq, Prod.mk.injEq] at heq
        obtain ⟨hl, hamt⟩ := heq
        subst hl
        subst hamt
        by_cases hw : l.active_locked_amount - min (l.unlockable_amount p) a
            < cfg.min_locked
        · have hstake : l.staked_amount p = 0 := by
            by_contra hne
            exact hblock ⟨hw, hne⟩
          simp only [if_pos hw]
          refine ⟨trivial, trivial, Or.inr ⟨?_, hstake⟩⟩
          simp [AccountLedger.active_locked_amount]
        · simp only [if_neg hw]
          exact ⟨trivial, trivial, Or.inl ⟨trivial, Nat.min_le_left _ _⟩⟩

lemma ledgerStep_unlock_inv (cfg : LedgerConfig) (p blk a : Nat) (l : AccountLedger)
    (h : LedgerInvariant l p) :
    LedgerInvariant (ledgerStep cfg p l (.unlock blk a)) p := by
  simp only [ledgerStep]
  split
  · rename_i l' amt heq
    obtain ⟨hs, hf, hcase⟩ := unlockCall_ok_state cfg p blk l a l' amt heq
    obtain ⟨b1, b2, b3⟩ := invariant_amount_bounds l p h
    obtain ⟨h1, h2, h3⟩ := h
    have e1 : l'.staked_entry_amount p = l.staked_entry_amount p := by
      simp [AccountLedger.staked_entry_amount, hs]
    have e2 : l'.future_entry_amount p = l.future_entry_amount p := by
      simp [AccountLedger.future_entry_amount, hf]
    refine ⟨?_, ?_, ?_⟩
    · rw [e1]
      rcases hcase with ⟨hl, hle⟩ | ⟨hl, hz⟩
      · rw [hl]
        simp only [AccountLedger.unlockable_amount,
          AccountLedger.active_locked_amount] at hle
        omega
      · rw [hl]
        omega
    · rw [e2]
      rcases hcase with ⟨hl, hle⟩ | ⟨hl, hz⟩
      · rw [hl]
        simp only [AccountLedger.unlockable_amount,
          AccountLedger.active_locked_amount] at hle
        omega
      · rw [hl]
        omega
    · rw [e1, e2, hf]
      exact h3
  · exact h

lemma add_stake_ok_inv (l : AccountLedger) (era p : Nat) (sub : Subperiod) (a : Nat)
    (l' : AccountLedger) (h : LedgerInvariant l p)
    (heq : l.add_stake era p sub a = .ok l') : LedgerInvariant l' p := by
  simp only [AccountLedger.add_stake] at heq
  split at heq
  · exact absurd heq (by simp)
  · split at heq
    · exact absurd heq (by simp)
    · split at heq
      · exact absurd heq (by simp)
      · rename_i hzero hperiod hfunds
        have hinv1 := roll_for_era_inv l era p h
        have hle1 := roll_for_era_staked_amount_le l era p
        have hlk := roll_for_era_locked l era
        have hb := invariant_amount_bounds l p h
        revert heq
        generalize hG : l.roll_for_era era = l1
        intro heq
        rw [hG] at hinv1 hle1 hlk
        have hb1 := invariant_amount_bounds l1 p hinv1
        simp only [Except.ok.injEq] at heq
        subst heq
        obtain ⟨lk1, ch1, ⟨sv1, sb1, se1, sp1⟩, fut1⟩ := l1
        obtain ⟨c1, c2, c3⟩ := hb1
        obtain ⟨b1, b2, b3⟩ := hb
        simp only [AccountLedger.stakeable_amount,
          AccountLedger.active_locked_amount] at hfunds
        cases sub with
        | Voting =>
          cases fut1 with
          | none =>
            simp only [LedgerInvariant, AccountLedger.staked_entry_amount,
              AccountLedger.future_entry_amount, AccountLedger.staked_amount,
              StakeAmount.total, Option.isSome_some, forall_const] at *
            split_ifs at * <;> first | omega | (dsimp only; omega)
          | some f1 =>
            obtain ⟨fv1, fb1, fe1, fp1⟩ := f1
            simp only [LedgerInvariant, AccountLedger.staked_entry_amount,
              AccountLedger.future_entry_amount, AccountLedger.staked_amount,
              StakeAmount.total, Option.isSome_some, forall_const] at *
            split_ifs at * <;> first | omega | (dsimp only; omega)
        | BuildAndEarn =>
          cases fut1 with
          | none =>
            simp only [LedgerInvariant, AccountLedger.staked_entry_amount,
              AccountLedger.future_entry_amount, AccountLedger.staked_amount,
              StakeAmount.total, Option.isSome_some, forall_const] at *
            split_ifs at * <;> first | omega | (dsimp only; omega)
          | some f1 =>
            obtain ⟨fv1, fb1, fe1, fp1⟩ := f1
            simp only [LedgerInvariant, AccountLedger.staked_entry_amount,
              AccountLedger.future_entry_amount, AccountLedger.staked_amount,
              StakeAmount.total, Option.isSome_some, forall_const] at *
            split_ifs at * <;> first | omega | (dsimp only; omega)

lemma unstake_staked_entry (l : AccountLedger) (p x : Nat) :
    (l.unstake p x).staked_entry_amount p = l.staked_entry_amount p - x := by
  obtain ⟨lk, ch, ⟨sv, sb, se, sp⟩, fut⟩ := l
  by_cases hsp : sp = p
  · subst hsp
    simp [AccountLedger.unstake, AccountLedger.staked_entry_amount,
      StakeAmount.subtract, StakeAmount.total]
    omega
  · simp [AccountLedger.unstake, AccountLedger.staked_entry_amount, hsp]

lemma unstake_future_entry (l : AccountLedger) (p x : Nat) :
    (l.unstake p x).future_entry_amount p = l.future_entry_amount p - x := by
  obtain ⟨lk, ch, st, fut⟩ := l
  cases fut with
  | none =>
    simp only [AccountLedger.unstake, AccountLedger.future_entry_amount, Option.map]
    simp
  | some f =>
    obtain ⟨fv, fb, fe, fp⟩ := f
    by_cases hfp : fp = p
    · subst hfp
      simp [AccountLedger.unstake, AccountLedger.future_entry_amount,
        StakeAmount.subtract, StakeAmount.total, Option.map]
      omega
    · simp only [AccountLedger.unstake, AccountLedger.future_entry_amount, Option.map]
      simp [hfp]

lemma unstake_locked (l : AccountLedger) (p x : Nat) :
    (l.unstake p x).locked = l.locked := rfl

lemma unstake_future_isSome (l : AccountLedger) (p x : Nat) :
    (l.unstake p x).staked_future.isSome = l.staked_future.isSome := by
  obtain ⟨lk, ch, st, fut⟩ := l
  cases fut <;> rfl

lemma unstake_inv (l : AccountLedger) (p x : Nat) (h : LedgerInvariant l p) :
    LedgerInvariant (l.unstake p x) p := by
  obtain ⟨h1, h2, h3⟩ := h
  refine ⟨?_, ?_, ?_⟩
  · rw [unstake_staked_entry, unstake_locked]
    omega
  · rw [unstake_future_entry, unstake_locked]
    omega
  · rw [unstake_staked_entry, unstake_future_entry, unstake_future_isSome]
    intro hh
    have := h3 hh
    omega

lemma claim_rewards_inv (l : AccountLedger) (p e : Nat) (full : Bool)
    (h : LedgerInvariant l p) : LedgerInvariant (l.claim_rewards e full) p := by
  obtain ⟨lk, ch, ⟨sv, sb, se, sp⟩, fut⟩ := l
  cases full with
  | true =>
    simp only [LedgerInvariant, AccountLedger.claim_rewards, if_pos,
      AccountLedger.staked_entry_amount, AccountLedger.future_entry_amount,
      StakeAmount.total, Option.isSome_none]
    refine ⟨?_, Nat.zero_le _, fun hh => absurd hh (by simp)⟩
    split_ifs <;> omega
  | false =>
    cases fut with
    | none =>
      obtain ⟨h1, h2, h3⟩ := h
      simp only [LedgerInvariant, AccountLedger.claim_rewards,
        AccountLedger.staked_entry_amount, AccountLedger.future_entry_amount,
        StakeAmount.total, Option.isSome_none, Option.isSome_some, forall_const,
        Bool.false_eq_true, if_false] at *
      refine ⟨?_, Nat.zero_le _, fun hh => absurd hh (by simp)⟩
      split_ifs at * <;> omega
    | some f =>
      obtain ⟨fv, fb, fe, fp⟩ := f
      obtain ⟨h1, h2, h3⟩ := h
      simp only [LedgerInvariant, AccountLedger.claim_rewards,
        AccountLedger.staked_entry_amount, AccountLedger.future_entry_amount,
        StakeAmount.total, Option.isSome_none, Option.isSome_some, forall_const,
        Bool.false_eq_true, if_false] at *
      refine ⟨?_, Nat.zero_le _, fun hh => absurd hh (by simp)⟩
      split_ifs at * <;> first | omega | (dsimp only; omega)

lemma ledgerStep_inv (cfg : LedgerConfig) (p : Nat) (l : AccountLedger) (op : LedgerOp)
    (h : LedgerInvariant l p) : LedgerInvariant (ledgerStep cfg p l op) p := by
  cases op with
  | lock a =>
    obtain ⟨h1, h2, h3⟩ := h
    simp only [ledgerStep, AccountLedger.add_lock, LedgerInvariant,
      AccountLedger.staked_entry_amount, AccountLedger.future_entry_amount] at *
    exact ⟨by omega, by omega, h3⟩
  | unlock blk a => exact ledgerStep_unlock_inv cfg p blk a l h
  | stake era sub a =>
    simp only [ledgerStep]
    split
    · rename_i l' heq
      exact add_stake_ok_inv l era p sub a l' h heq
    · exact h
  | unstake a => exact unstake_inv l p a h
  | claimUnlocked blk => exact h
  | relock =>
    obtain ⟨h1, h2, h3⟩ := h
    simp only [ledgerStep, AccountLedger.relock_unlocking, LedgerInvariant,
      AccountLedger.staked_entry_amount, AccountLedger.future_entry_amount] at *
    exact ⟨by omega, by omega, h3⟩
  | moveStake => exact h
  | claimRewards e full => exact claim_rewards_inv l p e full h

lemma ledger_ops_inv (cfg : LedgerConfig) (p : Nat) : ∀ (ops : List LedgerOp)
    (l : AccountLedger), LedgerInvariant l p →
    LedgerInvariant (ops.foldl (ledgerStep cfg p) l) p := by
  intro ops
  induction ops with
  | nil => intro l h; exact h
  | cons op ops ih =>
    intro l h
    exact ih _ (ledgerStep_inv cfg p l op h)

/-- C6: from any well-formed ledger state, after any sequence of
lock/unlock/stake/unstake/move/claim operations the amount staked for the
ongoing period never exceeds the active locked amount, and `stake` rejects
any request whose amount exceeds the remaining stakeable amount. -/
theorem ledger_stake_bounded_by_lock :
    (∀ (cfg : LedgerConfig) (p : Nat) (l : AccountLedger) (ops : List LedgerOp),
      LedgerInvariant l p →
      (ops.foldl (ledgerStep cfg p) l).staked_amount p ≤
        (ops.foldl (ledgerStep cfg p) l).active_locked_amount) ∧
    (∀ (l : AccountLedger) (era p : Nat) (sub : Subperiod) (a : Nat),
      l.stakeable_amount p < a → ∀ l', l.add_stake era p sub a ≠ .ok l') := by
  constructor
  · intro cfg p l ops h
    exact (invariant_amount_bounds _ p (ledger_ops_inv cfg p ops l h)).2.2
  · intro l era p sub a hlt l' heq
    simp only [AccountLedger.add_stake] at heq
    rw [if_neg (show ¬a = 0 by omega)] at heq
    by_cases hup : l.staked_period.getD p < p
    · rw [if_pos hup] at heq
      exact absurd heq (by simp)
    · rw [if_neg hup, if_pos hlt] at heq
      exact absurd heq (by simp)

/-- C6 witness: lock 100, stake 60 in the voting subperiod, unlock 30,
starting from an empty ledger; and a 101 stake rejected with only 100
lockable. -/
theorem ledger_stake_bounded_by_lock_witness :
    (([LedgerOp.lock 100, .stake 1 .Voting 60, .unlock 5 30].foldl
        (ledgerStep ⟨10, 8, 3⟩ 1) ⟨0, [], ⟨0, 0, 0, 0⟩, none⟩).staked_amount 1 ≤
      ([LedgerOp.lock 100, .stake 1 .Voting 60, .unlock 5 30].foldl
        (ledgerStep ⟨10, 8, 3⟩ 1) ⟨0, [], ⟨0, 0, 0, 0⟩, none⟩).active_locked_amount) ∧
    (⟨100, [], ⟨0, 0, 0, 0⟩, none⟩ : AccountLedger).add_stake 2 1 .Voting 101 ≠
      .ok ⟨100, [], ⟨0, 0, 0, 0⟩, none⟩ :=
  ⟨ledger_stake_bounded_by_lock.1 ⟨10, 8, 3⟩ 1 ⟨0, [], ⟨0, 0, 0, 0⟩, none⟩
      [LedgerOp.lock 100, .stake 1 .Voting 60, .unlock 5 30]
      ⟨by decide, by decide, by decide⟩,
    ledger_stake_bounded_by_lock.2 ⟨100, [], ⟨0, 0, 0, 0⟩, none⟩ 2 1 .Voting 101
      (by decide) ⟨100, [], ⟨0, 0, 0, 0⟩, none⟩⟩

/-- C2 counterexample: a full claim.  The period has closed with
`final_era = 3`; the ledger staked 93 from era 2 on, the span holds eras 2
and 3, so `last_claim_era = 3` and the claim pays both eras — but instead
of a claimed marker at `last_claim_era + 1 = 4`, the ledger's staked
entries are cleared entirely (the reset entry carries era tag 0). -/
theorem claim_staker_rewards_full_claim_clears_marker :
    claimStakerRewards ⟨300, [], ⟨93, 0, 2, 1⟩, none⟩ ⟨2, [⟨100, 400⟩, ⟨93, 370⟩]⟩
        5 (some 3) 0 true =
      .ok (⟨300, [], ⟨0, 0, 0, 0⟩, none⟩, [(2, 372), (3, 370)]) ∧
    (372 : Nat) = stakerEraReward 93 100 400 ∧
    (370 : Nat) = stakerEraReward 93 93 370 ∧
    (⟨0, 0, 0, 0⟩ : StakeAmount).era ≠ 3 + 1 := by
  exact ⟨rfl, by decide, by decide, by decide⟩

/-- C2 amended: a successful `claim_staker_rewards` pays, for every era
from the ledger's earliest unclaimed staked era up to `min(last era of the
span, final_era)` when the staked period has closed (up to
`current_era - 1` while it is ongoing), exactly
`Perbill::from_rational(stake_in_era, era_staked_total) ×
staker_reward_pool`; afterwards the claimed marker stands at
`last_claim_era + 1` when the claim did not exhaust the closed period,
while a full claim (reaching the closed period's final era) clears the
ledger's staked entries entirely. -/
theorem claim_staker_rewards_spec (l : AccountLedger) (span : EraRewardSpan)
    (current_era : Nat) (period_end : Option Nat) (oldest : Nat)
    (l' : AccountLedger) (rs : List (Nat × Nat)) (first last : Nat)
    (hfirst : l.earliest_staked_era = some first)
    (hlast : last = (match period_end with
      | some fe => min span.last_era fe
      | none => current_era - 1))
    (h : claimStakerRewards l span current_era period_end oldest true = .ok (l', rs)) :
    oldest ≤ first ∧ first ≤ last ∧
    rs = (List.range (last + 1 - first)).map (fun i =>
      (first + i, stakerEraReward (l.stake_for_era (first + i))
        ((span.get (first + i)).getD ⟨0, 0⟩).staked
        ((span.get (first + i)).getD ⟨0, 0⟩).staker_reward_pool)) ∧
    (period_end = some last → l'.staked = ⟨0, 0, 0, 0⟩ ∧ l'.staked_future = none) ∧
    (period_end ≠ some last → l'.staked.era = last + 1 ∧ l'.staked_future = none) := by
  simp only [claimStakerRewards, hfirst] at h
  rw [← hlast] at h
  by_cases c1 : first < oldest
  · rw [if_pos c1] at h
    exact absurd h (by simp)
  · rw [if_neg c1] at h
    by_cases c2 : last < first
    · rw [if_pos c2] at h
      exact absurd h (by simp)
    · rw [if_neg c2, if_pos trivial] at h
      simp only [Except.ok.injEq, Prod.mk.injEq] at h
      obtain ⟨hl, hrs⟩ := h
      refine ⟨by omega, by omega, hrs.symm, ?_, ?_⟩
      · intro hpe
        have hbeq : (period_end == some last) = true := by
          rw [hpe]
          exact beq_self_eq_true _
        rw [hbeq] at hl
        subst hl
        exact ⟨rfl, rfl⟩
      · intro hpe
        have hbeq : (period_end == some last) = false := beq_eq_false_iff_ne.mpr hpe
        rw [hbeq] at hl
        subst hl
        simp only [AccountLedger.claim_rewards, Bool.false_eq_true, if_false]
        exact ⟨trivial, trivial⟩

/-- C2 amended witness: a partial claim while the period is still ongoing
(current era 4): eras 2 and 3 are paid with the `Perbill` formula and the
claimed marker advances to era 4. -/
theorem claim_staker_rewards_spec_witness :
    (1 : Nat) ≤ 2 ∧ (2 : Nat) ≤ 3 ∧
    ([((2 : Nat), (372 : Nat)), (3, 370)] =
      (List.range (3 + 1 - 2)).map (fun i =>
        (2 + i, stakerEraReward
          ((⟨300, [], ⟨93, 0, 2, 1⟩, none⟩ : AccountLedger).stake_for_era (2 + i))
          (((⟨2, [⟨100, 400⟩, ⟨93, 370⟩]⟩ : EraRewardSpan).get (2 + i)).getD ⟨0, 0⟩).staked
          (((⟨2, [⟨100, 400⟩, ⟨93, 370⟩]⟩ : EraRewardSpan).get
            (2 + i)).getD ⟨0, 0⟩).staker_reward_pool))) ∧
    ((none : Option Nat) = some 3 →
      (⟨300, [], ⟨93, 0, 4, 1⟩, none⟩ : AccountLedger).staked = ⟨0, 0, 0, 0⟩ ∧
      (⟨300, [], ⟨93, 0, 4, 1⟩, none⟩ : AccountLedger).staked_future = none) ∧
    ((none : Option Nat) ≠ some 3 →
      (⟨300, [], ⟨93, 0, 4, 1⟩, none⟩ : AccountLedger).staked.era = 3 + 1 ∧
      (⟨300, [], ⟨93, 0, 4, 1⟩, none⟩ : AccountLedger).staked_future = none) :=
  claim_staker_rewards_spec ⟨300, [], ⟨93, 0, 2, 1⟩, none⟩ ⟨2, [⟨100, 400⟩, ⟨93, 370⟩]⟩
    4 none 1 ⟨300, [], ⟨93, 0, 4, 1⟩, none⟩ [(2, 372), (3, 370)] 2 3 rfl rfl rfl

/-- C9: whenever the external payout hook rejects the transfer, each of the
three claim operations fails with `RewardPayoutFailed` on exactly the
inputs where it would otherwise have succeeded; the error result carries no
new state, so storage stays unmodified. -/
theorem payout_rejection_aborts :
    (∀ (l : AccountLedger) (span : EraRewardSpan) (ce : Nat) (pe : Option Nat)
      (ov : Nat) (x : AccountLedger × List (Nat × Nat)),
      claimStakerRewards l span ce pe ov true = .ok x →
      claimStakerRewards l span ce pe ov false = .error .RewardPayoutFailed) ∧
    (∀ (info : SingularStakingInfo) (pe : Option PeriodEndInfo) (x : Nat),
      claimBonusReward info pe true = .ok x →
      claimBonusReward info pe false = .error .RewardPayoutFailed) ∧
    (∀ (record : Option TierAssignment) (dapp era ce : Nat) (x : Nat × TierAssignment),
      claimDappReward record dapp era ce true = .ok x →
      claimDappReward record dapp era ce false = .error .RewardPayoutFailed) := by
  refine ⟨?_, ?_, ?_⟩
  · intro l span ce pe ov x h
    cases he : l.earliest_staked_era with
    | none =>
      simp only [claimStakerRewards, he] at h
      exact absurd h (by simp)
    | some f =>
      simp only [claimStakerRewards, he] at h ⊢
      by_cases c1 : f < ov
      · rw [if_pos c1] at h
        simp at h
      · rw [if_neg c1] at h ⊢
        cases pe with
        | none =>
          by_cases c2 : ce - 1 < f
          · rw [if_pos c2] at h
            simp at h
          · rw [if_neg c2]
            simp
        | some fe =>
          by_cases c2 : min span.last_era fe < f
          · rw [if_pos c2] at h
            simp at h
          · rw [if_neg c2]
            simp
  · intro info pe x h
    simp only [claimBonusReward] at h ⊢
    by_cases c1 : info.bonus_status = 0
    · rw [if_pos c1] at h
      exact absurd h (by simp)
    · rw [if_neg c1] at h ⊢
      cases pe with
      | none => exact absurd h (by simp)
      | some p => simp
  · intro record dapp era ce x h
    simp only [claimDappReward] at h ⊢
    by_cases c1 : ce ≤ era
    · rw [if_pos c1] at h
      exact absurd h (by simp)
    · rw [if_neg c1] at h ⊢
      cases record with
      | none => exact absurd h (by simp)
      | some rec0 =>
        dsimp only at h ⊢
        split at h
        · exact absurd h (by simp)
        · rename_i entry hf
          simp

/-- C9 witness: each claim operation run on an input where the
successful-payout run returns `ok`, with the payout hook rejecting. -/
theorem payout_rejection_aborts_witness :
    claimStakerRewards ⟨100, [], ⟨50, 0, 3, 1⟩, none⟩ ⟨3, [⟨50, 200⟩]⟩ 5 none 0 false =
      .error .RewardPayoutFailed ∧
    claimBonusReward ⟨⟨0, 0, 0, 0⟩, ⟨40, 0, 2, 1⟩, 1⟩ (some ⟨3, 100, 500⟩) false =
      .error .RewardPayoutFailed ∧
    claimDappReward (some ⟨[(7, 1, 3)], [10, 20], [0, 5]⟩) 7 2 4 false =
      .error .RewardPayoutFailed :=
  ⟨payout_rejection_aborts.1 ⟨100, [], ⟨50, 0, 3, 1⟩, none⟩ ⟨3, [⟨50, 200⟩]⟩ 5 none 0
      (⟨100, [], ⟨50, 0, 5, 1⟩, none⟩, [(3, 200), (4, 0)]) rfl,
    payout_rejection_aborts.2.1 ⟨⟨0, 0, 0, 0⟩, ⟨40, 0, 2, 1⟩, 1⟩ (some ⟨3, 100, 500⟩)
      200 rfl,
    payout_rejection_aborts.2.2 (some ⟨[(7, 1, 3)], [10, 20], [0, 5]⟩) 7 2 4
      (35, ⟨[], [10, 20], [0, 5]⟩) rfl⟩

end DappStaking
